import Mathlib

/-!
Verification of the ABT analytics dashboard ingestion/aggregation/caching
pipeline (Go).  The Go source is shallowly embedded: Go `float64` money
fields are modelled as `Rat`, Go `int` as `Int`, Go maps as association
lists in first-insertion order, and `sort.Slice` with a strict greater-than
comparator as an insertion sort producing a non-increasing sequence (tie
order among equal sort keys is unspecified in the source, and no theorem
below depends on it).
-/

namespace ABT

/-! ## Generic association-list accumulator

Go code of the form

  if entry, exists := m[key(t)]; exists { upd(entry, t) } else { m[key(t)] = ini(t) }

followed by flattening the map to a slice.  We model the map as a list of
key/value pairs kept in first-insertion order; every aggregate property we
prove is independent of the flattening order. -/

variable {K : Type} {T : Type} {V : Type} [DecidableEq K]

/-- with one step of the Go accumulation loop: update the entry for `key t`
if present, otherwise append a fresh entry. -/
def accUpd (key : T → K) (ini : T → V) (upd : V → T → V)
    (acc : List (K × V)) (t : T) : List (K × V) :=
  if acc.any (fun p => p.1 = key t) then
    acc.map (fun p => if p.1 = key t then (p.1, upd p.2 t) else p)
  else
    acc ++ [(key t, ini t)]

/-- Accumulate a whole transaction list into the keyed map. -/
def groupFold (key : T → K) (ini : T → V) (upd : V → T → V)
    (ts : List T) : List (K × V) :=
  ts.foldl (accUpd key ini upd) []

/-- Lookup of the first entry with the given key. -/
def alookup (k : K) : List (K × V) → Option V
  | [] => none
  | p :: ps => if p.1 = k then some p.2 else alookup k ps

/-- Key list evolution: accumulation appends the key of a transaction whose
key is new, and leaves the key list alone otherwise. -/
def keyStep (key : T → K) (ks : List K) (t : T) : List K :=
  if key t ∈ ks then ks else ks ++ [key t]

/-- First-occurrence list of distinct keys of a transaction list. -/
def distinctKeys (key : T → K) (ts : List T) : List K :=
  ts.foldl (keyStep key) []

/-! ## Descending insertion sort

Go sorts each flattened view with `sort.Slice` and a strict greater-than
comparator on the ranking field.  The contractual content is that the output
is a permutation of the input that is non-increasing in the ranking field;
tie order is unspecified.  We model it with an insertion sort. -/

variable {α : Type} {β : Type} [LinearOrder β]

def insertDesc (key : α → β) (x : α) : List α → List α
  | [] => [x]
  | y :: ys => if key y ≤ key x then x :: y :: ys else y :: insertDesc key x ys

def sortDescBy (key : α → β) : List α → List α
  | [] => []
  | x :: xs => insertDesc key x (sortDescBy key xs)

/-- Ascending insertion sort, for the monthly view (sorted by month key). -/
def insertAsc (key : α → β) (x : α) : List α → List α
  | [] => [x]
  | y :: ys => if key x ≤ key y then x :: y :: ys else y :: insertAsc key x ys

def sortAscBy (key : α → β) : List α → List α
  | [] => []
  | x :: xs => insertAsc key x (sortAscBy key xs)

/-! ## Data model (internal/models)

Go `float64` money fields are modelled as `Rat`; Go `int` as `Int`; the two
`time.Time` fields are modelled by their calendar components, which is all
the pipeline ever reads from them (via `GetMonth`). -/

structure GoDate where
  year : Nat
  month : Nat
  day : Nat
deriving DecidableEq, Repr, Inhabited

structure Transaction where
  transactionID : String
  transactionDate : GoDate
  userID : String
  country : String
  region : String
  productID : String
  productName : String
  category : String
  price : Rat
  quantity : Int
  totalPrice : Rat
  stockQuantity : Int
  addedDate : GoDate
deriving DecidableEq, Repr, Inhabited

/-- Decimal rendering of a natural number left-padded with zeros to width
`w`, modelling the fixed-width fields of the Go time layout strings. -/
def padNat (w : Nat) (n : Nat) : String :=
  let s := toString n
  String.mk (List.replicate (w - s.length) '0') ++ s

/-- GetMonth returns the month in YYYY-MM format for grouping
(`t.TransactionDate.Format("2006-01")`). -/
def Transaction.GetMonth (t : Transaction) : String :=
  padNat 4 t.transactionDate.year ++ "-" ++ padNat 2 t.transactionDate.month

structure CountryRevenue where
  country : String
  productName : String
  totalRevenue : Rat
  transactionCount : Int
deriving DecidableEq, Repr, Inhabited

structure ProductFrequency where
  productID : String
  productName : String
  purchaseCount : Int
  stockQuantity : Int
deriving DecidableEq, Repr, Inhabited

structure MonthlySales where
  month : String
  salesVolume : Rat
  itemCount : Int
deriving DecidableEq, Repr, Inhabited

structure RegionRevenue where
  region : String
  totalRevenue : Rat
  itemsSold : Int
deriving DecidableEq, Repr, Inhabited

structure AnalyticsResponse where
  countryRevenue : List CountryRevenue
  topProducts : List ProductFrequency
  monthlySales : List MonthlySales
  topRegions : List RegionRevenue
  processingTimeMs : Int
  totalRecords : Int
  cacheHit : Bool
deriving DecidableEq, Repr, Inhabited

structure ProcessingStats where
  totalRecords : Int
  processedRecords : Int
  errorCount : Int
  processingTimeMs : Int
  memoryUsageMB : Rat
deriving DecidableEq, Repr, Inhabited

/-! ## Aggregation engine (internal/services/analytics_service.go)

Each view is a per-key accumulation over a Go map followed by a flatten and
a `sort.Slice`.  The map is modelled in first-insertion order; the sort as
the insertion sort above. -/

/-- Key of the revenue-by-group map: the Go code concatenates the two
dimensions with a pipe, `t.Country + "|" + t.ProductName`. -/
def countryRevenueKey (t : Transaction) : String :=
  t.country ++ "|" ++ t.productName

def countryRevenueIni (t : Transaction) : CountryRevenue :=
  { country := t.country
    productName := t.productName
    totalRevenue := t.totalPrice
    transactionCount := 1 }

def countryRevenueUpd (e : CountryRevenue) (t : Transaction) : CountryRevenue :=
  { e with
    totalRevenue := e.totalRevenue + t.totalPrice
    transactionCount := e.transactionCount + 1 }

/-- generateCountryRevenue creates the country-level revenue table sorted by
revenue descending; no truncation. -/
def generateCountryRevenue (transactions : List Transaction) :
    List CountryRevenue :=
  sortDescBy (fun r => r.totalRevenue)
    ((groupFold countryRevenueKey countryRevenueIni countryRevenueUpd
        transactions).map Prod.snd)

def topProductsIni (t : Transaction) : ProductFrequency :=
  { productID := t.productID
    productName := t.productName
    purchaseCount := t.quantity
    stockQuantity := t.stockQuantity }

def topProductsUpd (e : ProductFrequency) (t : Transaction) : ProductFrequency :=
  { e with purchaseCount := e.purchaseCount + t.quantity }

/-- generateTopProducts aggregates by product id, sorts by accumulated
purchase count descending and truncates to the first 20 entries. -/
def generateTopProducts (transactions : List Transaction) :
    List ProductFrequency :=
  (sortDescBy (fun r => r.purchaseCount)
    ((groupFold (fun t => t.productID) topProductsIni topProductsUpd
        transactions).map Prod.snd)).take 20

def monthlySalesIni (t : Transaction) : MonthlySales :=
  { month := t.GetMonth
    salesVolume := t.totalPrice
    itemCount := t.quantity }

def monthlySalesUpd (e : MonthlySales) (t : Transaction) : MonthlySales :=
  { e with
    salesVolume := e.salesVolume + t.totalPrice
    itemCount := e.itemCount + t.quantity }

/-- generateMonthlySales aggregates by calendar month and sorts ascending by
the month key. -/
def generateMonthlySales (transactions : List Transaction) :
    List MonthlySales :=
  sortAscBy (fun r => r.month)
    ((groupFold Transaction.GetMonth monthlySalesIni monthlySalesUpd
        transactions).map Prod.snd)

def topRegionsIni (t : Transaction) : RegionRevenue :=
  { region := t.region
    totalRevenue := t.totalPrice
    itemsSold := t.quantity }

def topRegionsUpd (e : RegionRevenue) (t : Transaction) : RegionRevenue :=
  { e with
    totalRevenue := e.totalRevenue + t.totalPrice
    itemsSold := e.itemsSold + t.quantity }

/-- generateTopRegions aggregates by region, sorts by revenue descending and
truncates to the first 30 entries. -/
def generateTopRegions (transactions : List Transaction) :
    List RegionRevenue :=
  (sortDescBy (fun r => r.totalRevenue)
    ((groupFold (fun t => t.region) topRegionsIni topRegionsUpd
        transactions).map Prod.snd)).take 30

/-- GenerateAnalytics runs the four views on the same record list and fills
in the summary metadata.  The measured wall-clock duration is a parameter
(`elapsedMs`), since real time is outside the embedding. -/
def GenerateAnalytics (transactions : List Transaction) (elapsedMs : Int) :
    AnalyticsResponse :=
  { countryRevenue := generateCountryRevenue transactions
    topProducts := generateTopProducts transactions
    monthlySales := generateMonthlySales transactions
    topRegions := generateTopRegions transactions
    processingTimeMs := elapsedMs
    totalRecords := (transactions.length : Int)
    cacheHit := false }

/-- Spec-side definition, following the words of the claim: the maximum
observed stock reading among the transactions of a product. -/
def specMaxObservedStock (pid : String) (ts : List Transaction) : Int :=
  ((ts.filter (fun t => t.productID = pid)).map
    (fun t => t.stockQuantity)).foldl max 0

/-- Sample transaction used by concrete scenarios. -/
def sampleTx (pid pname country : String) (qty stock : Int) (total : Rat) :
    Transaction :=
  { transactionID := "T1"
    transactionDate := { year := 2024, month := 1, day := 1 }
    userID := "U1"
    country := country
    region := "R1"
    productID := pid
    productName := pname
    category := "C1"
    price := 0
    quantity := qty
    totalPrice := total
    stockQuantity := stock
    addedDate := { year := 2024, month := 1, day := 1 } }

/-- Concrete input refuting the maximum-stock reading of the spec: product
P1 is seen with stock 5 first and stock 10 second. -/
def cexStockInput : List Transaction :=
  [sampleTx "P1" "N1" "X" 1 5 10, sampleTx "P1" "N1" "X" 1 10 20]

/-- Concatenation of a (country, product name) pair with the pipe separator,
as the Go revenue map key does. -/
def pairKey (p : String × String) : String :=
  p.1 ++ "|" ++ p.2

/-- Scenario input of the accumulation test: two records with group key
(country=X, product=Y) and totals 100.0 and 50.0. -/
def scenarioAccInput : List Transaction :=
  [sampleTx "P1" "Y" "X" 1 5 100, sampleTx "P1" "Y" "X" 1 5 50]

/-- Concrete input where two distinct (country, product name) pairs collide
on the concatenated map key: (country=A|B, product=C) and
(country=A, product=B|C) both map to the key A|B|C. -/
def cexPipeInput : List Transaction :=
  [sampleTx "P1" "C" "A|B" 1 5 1, sampleTx "P1" "B|C" "A" 1 5 2]

/-! ## Row parser (internal/models/transaction.go, ParseCSVRow)

The Go parser delegates primitive field parsing to the standard library
(`time.Parse` with three layouts, `strconv.ParseFloat`, `strconv.Atoi`).
Those primitives are abstracted into a `Prims` record so that the
acceptance theorem holds for every implementation of them; simple concrete
models are supplied for evaluating the parser on concrete rows. -/

/-- Primitive field parsers of the Go standard library, abstracted. -/
structure Prims where
  parseISO : String → Option GoDate
  parseUS : String → Option GoDate
  parseDateTime : String → Option GoDate
  parseFloat : String → Option Rat
  atoi : String → Option Int

/-- Zero value of Go `time.Time`, as far as this model records it. -/
def goZeroDate : GoDate :=
  { year := 1, month := 1, day := 1 }

/-- Model of strings.TrimSpace: strip leading and trailing whitespace. -/
def trimSpace (s : String) : String :=
  String.mk
    (((s.data.dropWhile Char.isWhitespace).reverse.dropWhile
      Char.isWhitespace).reverse)

/-- Transaction-date parsing: an empty field is skipped (zero date); a
non-empty field must parse under one of the three layouts, tried in the Go
order. -/
def parseTxDate (P : Prims) (s : String) : Option GoDate :=
  if s = "" then some goZeroDate
  else
    match P.parseISO s with
    | some d => some d
    | none =>
      match P.parseUS s with
      | some d => some d
      | none => P.parseDateTime s

/-- Price and total-price pattern: empty is skipped (zero), otherwise the
float must parse and be non-negative. -/
def parseNonNegFloat (P : Prims) (s : String) : Option Rat :=
  if s = "" then some 0
  else
    match P.parseFloat s with
    | some x => if 0 ≤ x then some x else none
    | none => none

/-- Quantity pattern: empty is skipped (zero), otherwise the integer must
parse and be strictly positive. -/
def parsePosInt (P : Prims) (s : String) : Option Int :=
  if s = "" then some 0
  else
    match P.atoi s with
    | some n => if 0 < n then some n else none
    | none => none

/-- Stock-quantity pattern: empty is skipped (zero), otherwise the integer
must parse and be non-negative. -/
def parseNonNegInt (P : Prims) (s : String) : Option Int :=
  if s = "" then some 0
  else
    match P.atoi s with
    | some n => if 0 ≤ n then some n else none
    | none => none

/-- Added-date parsing (column 12): best effort with two layouts, parse
failures ignored, leaving the zero value. -/
def parseAddedDate (P : Prims) (s : String) : GoDate :=
  if s = "" then goZeroDate
  else
    match P.parseISO s with
    | some d => d
    | none =>
      match P.parseUS s with
      | some d => d
      | none => goZeroDate

/-- ParseCSVRow converts a CSV row to a Transaction, or reports a row-level
error.  Field order, trimming, skip-when-empty behaviour and the validation
thresholds follow the Go code. -/
def ParseCSVRow (P : Prims) (row : List String) : Except String Transaction :=
  if row.length < 12 then
    .error "insufficient columns"
  else
    if trimSpace (row.getD 0 "") = "" then .error "empty transaction_id"
    else
      match parseTxDate P (trimSpace (row.getD 1 "")) with
      | none => .error ("invalid transaction_date: " ++ trimSpace (row.getD 1 ""))
      | some date =>
        match parseNonNegFloat P (trimSpace (row.getD 8 "")) with
        | none => .error ("invalid price: " ++ trimSpace (row.getD 8 ""))
        | some price =>
          match parsePosInt P (trimSpace (row.getD 9 "")) with
          | none => .error ("invalid quantity: " ++ trimSpace (row.getD 9 ""))
          | some qty =>
            match parseNonNegFloat P (trimSpace (row.getD 10 "")) with
            | none => .error ("invalid total_price: " ++ trimSpace (row.getD 10 ""))
            | some total =>
              match parseNonNegInt P (trimSpace (row.getD 11 "")) with
              | none => .error ("invalid stock_quantity: " ++ trimSpace (row.getD 11 ""))
              | some stock =>
                .ok
                  { transactionID := trimSpace (row.getD 0 "")
                    transactionDate := date
                    userID := trimSpace (row.getD 2 "")
                    country := trimSpace (row.getD 3 "")
                    region := trimSpace (row.getD 4 "")
                    productID := trimSpace (row.getD 5 "")
                    productName := trimSpace (row.getD 6 "")
                    category := trimSpace (row.getD 7 "")
                    price := price
                    quantity := qty
                    totalPrice := total
                    stockQuantity := stock
                    addedDate :=
                      if 12 < row.length then
                        parseAddedDate P (trimSpace (row.getD 12 ""))
                      else goZeroDate }

/-- Decimal digit string to a natural number. -/
def digitsToNat (s : String) : Nat :=
  s.foldl (fun n c => n * 10 + (c.toNat - 48)) 0

/-- Simple concrete model of strconv.Atoi: optional sign and decimal
digits. -/
def goAtoi (s : String) : Option Int :=
  if s = "" then none
  else
    let core :=
      if s.startsWith "-" ∨ s.startsWith "+" then s.drop 1 else s
    if core = "" then none
    else if core.all Char.isDigit then
      if s.startsWith "-" then some (-(digitsToNat core : Int))
      else some ((digitsToNat core : Int))
    else none

/-- Simplified concrete model of strconv.ParseFloat: optional sign, decimal
digits with an optional fractional part.  Go additionally accepts exponent
and hexadecimal forms, which no claim here exercises. -/
def goParseFloat (s : String) : Option Rat :=
  if s = "" then none
  else
    let sign : Rat := if s.startsWith "-" then -1 else 1
    let body :=
      if s.startsWith "-" ∨ s.startsWith "+" then s.drop 1 else s
    match body.splitOn "." with
    | [ip] =>
        if ip ≠ "" ∧ ip.all Char.isDigit then
          some (sign * (digitsToNat ip : Rat))
        else none
    | [ip, fp] =>
        if (ip ≠ "" ∨ fp ≠ "") ∧ ip.all Char.isDigit ∧ fp.all Char.isDigit then
          some (sign * ((digitsToNat ip : Rat)
            + (digitsToNat fp : Rat) / ((10 : Rat) ^ fp.length)))
        else none
    | _ => none

/-- Simplified concrete model of time.Parse with layout 2006-01-02. -/
def goParseISODate (s : String) : Option GoDate :=
  match s.splitOn "-" with
  | [y, m, d] =>
      if y.length = 4 ∧ m.length = 2 ∧ d.length = 2
          ∧ y.all Char.isDigit ∧ m.all Char.isDigit ∧ d.all Char.isDigit
          ∧ 1 ≤ digitsToNat m ∧ digitsToNat m ≤ 12
          ∧ 1 ≤ digitsToNat d ∧ digitsToNat d ≤ 31 then
        some { year := digitsToNat y, month := digitsToNat m, day := digitsToNat d }
      else none
  | _ => none

/-- Simplified concrete model of time.Parse with layout 01/02/2006. -/
def goParseUSDate (s : String) : Option GoDate :=
  match s.splitOn "/" with
  | [m, d, y] =>
      if y.length = 4 ∧ m.length = 2 ∧ d.length = 2
          ∧ y.all Char.isDigit ∧ m.all Char.isDigit ∧ d.all Char.isDigit
          ∧ 1 ≤ digitsToNat m ∧ digitsToNat m ≤ 12
          ∧ 1 ≤ digitsToNat d ∧ digitsToNat d ≤ 31 then
        some { year := digitsToNat y, month := digitsToNat m, day := digitsToNat d }
      else none
  | _ => none

/-- Simplified concrete model of time.Parse with layout
2006-01-02 15:04:05 (the date component is recorded). -/
def goParseDateTime (s : String) : Option GoDate :=
  match s.splitOn " " with
  | [d, tm] =>
      if tm.length = 8 ∧ (tm.splitOn ":").length = 3
          ∧ (tm.splitOn ":").all (fun c => c.length = 2 ∧ c.all Char.isDigit) then
        goParseISODate d
      else none
  | _ => none

/-- Concrete primitive parsers used to evaluate the model on concrete
rows. -/
def defaultPrims : Prims :=
  { parseISO := goParseISODate
    parseUS := goParseUSDate
    parseDateTime := goParseDateTime
    parseFloat := goParseFloat
    atoi := goAtoi }

/-- Row with twelve fields whose optional fields are all empty. -/
def cexEmptyRow : List String :=
  ["T1", "", "", "", "", "", "", "", "", "", "", ""]

/-! ## Batch processor (internal/services/csv_processor.go)

The reader chunks the row stream into consecutive batches with strictly
increasing zero-based indices; each worker parses one batch, skipping rows
that fail to parse and counting them; the collector stores results keyed by
batch index and concatenates the present batches in index order.  Worker
scheduling only permutes the result stream, which is modelled by quantifying
theorems over permutations of the produced results. -/

structure IndexedBatch where
  records : List (List String)
  index : Nat
deriving DecidableEq, Repr, Inhabited

structure BatchResult where
  transactions : List Transaction
  batchIndex : Nat
  parseErrors : Nat
deriving DecidableEq, Repr, Inhabited

structure ProcessingResult where
  transactions : List Transaction
  stats : ProcessingStats
deriving DecidableEq, Repr, Inhabited

/-- Chunking loop of readBatches: batches of `batchSize` rows (the final one
possibly smaller) tagged with consecutive indices starting at `i`. -/
def chunkFrom (batchSize : Nat) (i : Nat) (rows : List (List String)) :
    List IndexedBatch :=
  if h : batchSize = 0 ∨ rows = [] then []
  else
    { records := rows.take batchSize, index := i } ::
      chunkFrom batchSize (i + 1) (rows.drop batchSize)
termination_by rows.length
decreasing_by
  rw [List.length_drop]
  push_neg at h
  have h1 : 0 < batchSize := Nat.pos_of_ne_zero h.1
  have h3 : 0 < rows.length := List.length_pos.mpr h.2
  omega

/-- readBatches emits the indexed batches of the row stream (the header is
already consumed by the caller). -/
def readBatches (batchSize : Nat) (rows : List (List String)) :
    List IndexedBatch :=
  chunkFrom batchSize 0 rows

/-- processBatchWorker on one batch: parse every row, keep the successes in
row order, count the failures. -/
def processBatch (P : Prims) (b : IndexedBatch) : BatchResult :=
  { transactions := b.records.filterMap (fun r => (ParseCSVRow P r).toOption)
    batchIndex := b.index
    parseErrors :=
      (b.records.filter (fun r => ((ParseCSVRow P r).toOption).isNone)).length }

/-- Results that reach the collector: one per produced batch, minus the
batches whose results are lost in flight. -/
def collectResults (P : Prims) (batchSize : Nat) (rows : List (List String))
    (lost : List Nat) : List BatchResult :=
  ((readBatches batchSize rows).map (processBatch P)).filter
    (fun r => ¬ r.batchIndex ∈ lost)

/-- Collector reassembly: walk indices 0..total-1 in order and concatenate
the transactions of the result stored under each present index. -/
def reassemble (total : Nat) (results : List BatchResult) : List Transaction :=
  (List.range total).foldl
    (fun acc i =>
      match results.find? (fun b => b.batchIndex = i) with
      | some b => acc ++ b.transactions
      | none => acc) []

/-- Source of the pipeline: the file may fail to open, its header may fail
to read, or it yields the data rows after the header. -/
inductive CSVSource where
  | openError (msg : String)
  | headerError (msg : String)
  | content (rows : List (List String))
deriving DecidableEq, Repr

/-- ProcessLargeCSV: abort only when the source cannot be opened or its
header cannot be read; otherwise chunk, parse, reassemble in index order and
report statistics (missing batches and row parse failures are tallied, never
fatal).  Wall-clock time and the memory reading are parameters. -/
def ProcessLargeCSV (P : Prims) (batchSize : Nat) (src : CSVSource)
    (lost : List Nat) (elapsedMs : Int) (memoryUsageMB : Rat) :
    Except String ProcessingResult :=
  match src with
  | .openError msg => .error ("failed to open CSV file: " ++ msg)
  | .headerError msg => .error ("failed to read CSV header: " ++ msg)
  | .content rows =>
      .ok
        { transactions :=
            reassemble (readBatches batchSize rows).length
              (collectResults P batchSize rows lost)
          stats :=
            { totalRecords :=
                ((reassemble (readBatches batchSize rows).length
                  (collectResults P batchSize rows lost)).length : Int)
              processedRecords :=
                ((reassemble (readBatches batchSize rows).length
                  (collectResults P batchSize rows lost)).length : Int)
              errorCount :=
                ((((List.range (readBatches batchSize rows).length).filter
                    (fun i => ((collectResults P batchSize rows lost).find?
                      (fun b => b.batchIndex = i)).isNone)).length : Int)
                  + (((collectResults P batchSize rows lost).map
                      (fun b => b.parseErrors)).sum : Int))
              processingTimeMs := elapsedMs
              memoryUsageMB := memoryUsageMB } }

/-- Concrete three-row input for the reordering witness (the middle row is
malformed and is skipped by the parser). -/
def witnessRows : List (List String) :=
  [cexEmptyRow, [], cexEmptyRow]

/-- The two batch results of `witnessRows` at batch size 2, listed in
reversed completion order. -/
def witnessResults : List BatchResult :=
  [processBatch defaultPrims { records := [cexEmptyRow], index := 1 },
   processBatch defaultPrims { records := [cexEmptyRow, []], index := 0 }]

/-! ## Cache tier (internal/services/cache_service.go)

The memory slot is the `cacheData`/`cacheTime` pair guarded by the TTL and
a process-memory ceiling; the durable tier is one JSON file.  Wall-clock
time and the process memory reading are explicit parameters. -/

structure CacheService where
  cacheData : Option AnalyticsResponse
  cacheTime : Int
  cacheTTL : Int
  maxMemory : Int
deriving DecidableEq, Repr

/-- NewCacheService starts with an empty memory slot. -/
def NewCacheService (ttl maxMemory : Int) : CacheService :=
  { cacheData := none, cacheTime := 0, cacheTTL := ttl, maxMemory := maxMemory }

/-- LoadFromCache: miss when the slot is empty or the entry is older than
the TTL (slot untouched); then, if the process memory reading exceeds the
ceiling, clear the slot and miss; otherwise hit with the CacheHit flag
set.  Returns the result and the post-read service state. -/
def LoadFromCache (c : CacheService) (now : Int) (memAlloc : Int) :
    Option AnalyticsResponse × CacheService :=
  match c.cacheData with
  | none => (none, c)
  | some d =>
      if c.cacheTTL < now - c.cacheTime then (none, c)
      else if c.maxMemory < memAlloc then (none, { c with cacheData := none })
      else (some { d with cacheHit := true }, c)

/-- SaveToMemory: skip when the memory reading exceeds the ceiling,
otherwise store the snapshot with a fresh timestamp. -/
def SaveToMemory (c : CacheService) (data : AnalyticsResponse) (now : Int)
    (memAlloc : Int) : CacheService :=
  if c.maxMemory < memAlloc then c
  else { c with cacheData := some data, cacheTime := now }

/-- JSON document model for the durable cache file. -/
inductive Json where
  | null
  | bool (b : Bool)
  | num (q : Rat)
  | str (s : String)
  | arr (elems : List Json)
  | obj (fields : List (String × Json))

def encodeCountryRevenue (r : CountryRevenue) : Json :=
  .obj [("country", .str r.country),
        ("product_name", .str r.productName),
        ("total_revenue", .num r.totalRevenue),
        ("transaction_count", .num (r.transactionCount : Rat))]

def encodeProductFrequency (r : ProductFrequency) : Json :=
  .obj [("product_id", .str r.productID),
        ("product_name", .str r.productName),
        ("purchase_count", .num (r.purchaseCount : Rat)),
        ("current_stock", .num (r.stockQuantity : Rat))]

def encodeMonthlySales (r : MonthlySales) : Json :=
  .obj [("month", .str r.month),
        ("sales_volume", .num r.salesVolume),
        ("item_count", .num (r.itemCount : Rat))]

def encodeRegionRevenue (r : RegionRevenue) : Json :=
  .obj [("region", .str r.region),
        ("total_revenue", .num r.totalRevenue),
        ("items_sold", .num (r.itemsSold : Rat))]

/-- Marshal of the full snapshot, with the field names of the Go json
tags. -/
def marshal (a : AnalyticsResponse) : Json :=
  .obj [("country_revenue", .arr (a.countryRevenue.map encodeCountryRevenue)),
        ("top_products", .arr (a.topProducts.map encodeProductFrequency)),
        ("monthly_sales", .arr (a.monthlySales.map encodeMonthlySales)),
        ("top_regions", .arr (a.topRegions.map encodeRegionRevenue)),
        ("processing_time_ms", .num (a.processingTimeMs : Rat)),
        ("total_records", .num (a.totalRecords : Rat)),
        ("cache_hit", .bool a.cacheHit)]

def asStr : Json → Option String
  | .str s => some s
  | _ => none

def asNum : Json → Option Rat
  | .num q => some q
  | _ => none

def asInt : Json → Option Int
  | .num q => if q.den = 1 then some q.num else none
  | _ => none

def asBool : Json → Option Bool
  | .bool b => some b
  | _ => none

def asArr : Json → Option (List Json)
  | .arr l => some l
  | _ => none

def decodeCountryRevenue : Json → Option CountryRevenue
  | .obj fields => do
      let country ← (alookup "country" fields).bind asStr
      let pname ← (alookup "product_name" fields).bind asStr
      let rev ← (alookup "total_revenue" fields).bind asNum
      let cnt ← (alookup "transaction_count" fields).bind asInt
      pure { country := country, productName := pname,
             totalRevenue := rev, transactionCount := cnt }
  | _ => none

def decodeProductFrequency : Json → Option ProductFrequency
  | .obj fields => do
      let pid ← (alookup "product_id" fields).bind asStr
      let pname ← (alookup "product_name" fields).bind asStr
      let cnt ← (alookup "purchase_count" fields).bind asInt
      let stock ← (alookup "current_stock" fields).bind asInt
      pure { productID := pid, productName := pname,
             purchaseCount := cnt, stockQuantity := stock }
  | _ => none

def decodeMonthlySales : Json → Option MonthlySales
  | .obj fields => do
      let month ← (alookup "month" fields).bind asStr
      let vol ← (alookup "sales_volume" fields).bind asNum
      let cnt ← (alookup "item_count" fields).bind asInt
      pure { month := month, salesVolume := vol, itemCount := cnt }
  | _ => none

def decodeRegionRevenue : Json → Option RegionRevenue
  | .obj fields => do
      let region ← (alookup "region" fields).bind asStr
      let rev ← (alookup "total_revenue" fields).bind asNum
      let sold ← (alookup "items_sold" fields).bind asInt
      pure { region := region, totalRevenue := rev, itemsSold := sold }
  | _ => none

/-- Element-wise decoding of a JSON array, failing if any element fails. -/
def decodeList {γ : Type} (dec : Json → Option γ) : List Json → Option (List γ)
  | [] => some []
  | j :: js => do
      let x ← dec j
      let xs ← decodeList dec js
      pure (x :: xs)

/-- Unmarshal of the full snapshot. -/
def unmarshal : Json → Option AnalyticsResponse
  | .obj fields => do
      let cr ← ((alookup "country_revenue" fields).bind asArr).bind
        (decodeList decodeCountryRevenue)
      let tp ← ((alookup "top_products" fields).bind asArr).bind
        (decodeList decodeProductFrequency)
      let ms ← ((alookup "monthly_sales" fields).bind asArr).bind
        (decodeList decodeMonthlySales)
      let tr ← ((alookup "top_regions" fields).bind asArr).bind
        (decodeList decodeRegionRevenue)
      let ptm ← (alookup "processing_time_ms" fields).bind asInt
      let tot ← (alookup "total_records" fields).bind asInt
      let hit ← (alookup "cache_hit" fields).bind asBool
      pure { countryRevenue := cr, topProducts := tp, monthlySales := ms,
             topRegions := tr, processingTimeMs := ptm, totalRecords := tot,
             cacheHit := hit }
  | _ => none

/-- Durable tier: one file slot at the configured path. -/
structure FileCache where
  file : Option Json

/-- SaveToFile serialises the snapshot and overwrites the file. -/
def SaveToFile (_fc : FileCache) (data : AnalyticsResponse) : FileCache :=
  { file := some (marshal data) }

/-- LoadFromFile: error when the file is absent or does not deserialise;
on success the snapshot is also saved back to the memory slot. -/
def LoadFromFile (c : CacheService) (fc : FileCache) (now memAlloc : Int) :
    Except String (AnalyticsResponse × CacheService) :=
  match fc.file with
  | none => .error "cache file does not exist"
  | some j =>
      match unmarshal j with
      | none => .error "failed to unmarshal cache data"
      | some analytics => .ok (analytics, SaveToMemory c analytics now memAlloc)

/-- PreprocessAndCache: process the CSV, generate analytics, and write the
durable file through a FRESHLY CONSTRUCTED cache service that is then
discarded; no pre-existing memory slot is an input or output of this
operation (mirroring the Go code, which only calls SaveToFile). -/
def PreprocessAndCache (P : Prims) (batchSize : Nat) (src : CSVSource)
    (lost : List Nat) (elapsedMs : Int) (mem : Rat) (fc : FileCache)
    (genElapsedMs : Int) : Except String (ProcessingStats × FileCache) :=
  match ProcessLargeCSV P batchSize src lost elapsedMs mem with
  | .error e => .error ("failed to process CSV: " ++ e)
  | .ok result =>
      .ok (result.stats,
        SaveToFile fc (GenerateAnalytics result.transactions genElapsedMs))

/-- Pre-refresh snapshot of the staleness scenario (empty data set). -/
def cexOldSnapshot : AnalyticsResponse :=
  GenerateAnalytics [] 0

/-- Post-refresh snapshot of the staleness scenario: one parsed row. -/
def cexNewSnapshot : AnalyticsResponse :=
  GenerateAnalytics ((cexEmptyRow :: []).filterMap
    (fun r => (ParseCSVRow defaultPrims r).toOption)) 0

/-- The handler's long-lived cache service, holding the fresh pre-refresh
snapshot. -/
def cexStaleCache : CacheService :=
  { cacheData := some cexOldSnapshot, cacheTime := 0, cacheTTL := 100,
    maxMemory := 1000 }

/-- Cache service whose fresh entry is evicted by the memory ceiling. -/
def cexFreshCache : CacheService :=
  { cacheData := some cexOldSnapshot, cacheTime := 0, cacheTTL := 100,
    maxMemory := 10 }

/-- Cache service with an expired entry and an over-ceiling memory
reading. -/
def cexExpiredCache : CacheService :=
  { cacheData := some cexOldSnapshot, cacheTime := 0, cacheTTL := 100,
    maxMemory := 10 }

/-! ## Theorems -/

theorem alookup_append (k : K) (l1 l2 : List (K × V)) :
    alookup k (l1 ++ l2) =
      match alookup k l1 with
      | some v => some v
      | none => alookup k l2 := by
  induction l1 with
  | nil => simp [alookup]
  | cons p ps ih =>
      by_cases h : p.1 = k <;> simp [alookup, h, ih]

theorem alookup_eq_none_of_not_any (k : K) (l : List (K × V))
    (h : ¬ l.any (fun p => p.1 = k) = true) : alookup k l = none := by
  induction l with
  | nil => rfl
  | cons p ps ih =>
      simp only [List.any_cons, Bool.or_eq_true, decide_eq_true_eq] at h
      push_neg at h
      rw [alookup, if_neg h.1, ih h.2]

theorem alookup_eq_some_of_any (k : K) (l : List (K × V))
    (h : l.any (fun p => p.1 = k) = true) : ∃ v, alookup k l = some v := by
  induction l with
  | nil => simp at h
  | cons p ps ih =>
      by_cases hp : p.1 = k
      · exact ⟨p.2, by simp [alookup, hp]⟩
      · simp only [List.any_cons, Bool.or_eq_true, decide_eq_true_eq] at h
        rcases h with h | h
        · exact absurd h hp
        · obtain ⟨v, hv⟩ := ih h
          exact ⟨v, by simp [alookup, hp, hv]⟩

theorem alookup_map_upd (key : T → K) (upd : V → T → V) (t : T) (k : K)
    (l : List (K × V)) :
    alookup k (l.map (fun p => if p.1 = key t then (p.1, upd p.2 t) else p)) =
      if k = key t then (alookup k l).map (fun v => upd v t)
      else alookup k l := by
  induction l with
  | nil => by_cases h : k = key t <;> simp [alookup, h]
  | cons p ps ih =>
      simp only [List.map_cons]
      by_cases hp : p.1 = key t
      · rw [if_pos hp]
        by_cases hpk : p.1 = k
        · have hk : k = key t := by rw [← hpk]; exact hp
          simp [alookup, hpk, hk]
        · have hk : ¬ k = key t := fun hc => hpk (hp.trans hc.symm)
          have hk2 : ¬ key t = k := fun hc => hk hc.symm
          simp [alookup, hpk, hp, hk, hk2, ih]
      · rw [if_neg hp]
        by_cases hpk : p.1 = k
        · have hk : ¬ k = key t := fun hc => hp (hpk.trans hc)
          simp [alookup, hpk, hk]
        · simp [alookup, hpk, ih]

/-- Characterisation of one accumulation step at the level of lookups. -/
theorem alookup_accUpd (key : T → K) (ini : T → V) (upd : V → T → V)
    (acc : List (K × V)) (t : T) (k : K) :
    alookup k (accUpd key ini upd acc t) =
      if k = key t then
        match alookup k acc with
        | some v => some (upd v t)
        | none => some (ini t)
      else alookup k acc := by
  unfold accUpd
  by_cases hmem : acc.any (fun p => p.1 = key t) = true
  · rw [if_pos hmem, alookup_map_upd]
    by_cases hk : k = key t
    · rw [if_pos hk, if_pos hk, hk]
      obtain ⟨v, hv⟩ := alookup_eq_some_of_any (key t) acc hmem
      rw [hv]; rfl
    · rw [if_neg hk, if_neg hk]
  · rw [if_neg hmem, alookup_append]
    by_cases hk : k = key t
    · rw [if_pos hk, hk, alookup_eq_none_of_not_any (key t) acc hmem]
      simp [alookup]
    · rw [if_neg hk]
      have hk2 : ¬ key t = k := fun hc => hk hc.symm
      cases hv : alookup k acc with
      | none => simp [alookup, hk2]
      | some v => rfl

/-- Lookup after accumulating a whole list: the value at key `k` is the fold
of the update function over the transactions whose key is `k`, seeded by the
initialiser on the first of them. -/
theorem alookup_foldl_accUpd (key : T → K) (ini : T → V) (upd : V → T → V)
    (ts : List T) (acc : List (K × V)) (k : K) :
    alookup k (ts.foldl (accUpd key ini upd) acc) =
      match alookup k acc with
      | some v => some ((ts.filter (fun t => key t = k)).foldl upd v)
      | none =>
        match ts.filter (fun t => key t = k) with
        | [] => none
        | t0 :: rest => some (rest.foldl upd (ini t0)) := by
  induction ts generalizing acc with
  | nil => cases h : alookup k acc <;> simp [h]
  | cons t ts ih =>
      rw [List.foldl_cons, ih, alookup_accUpd]
      by_cases hk : key t = k
      · have hk2 : k = key t := hk.symm
        rw [if_pos hk2]
        cases alookup k acc with
        | some v => simp [List.filter_cons, hk]
        | none => simp [List.filter_cons, hk]
      · have hk2 : ¬ k = key t := fun hc => hk hc.symm
        rw [if_neg hk2]
        cases alookup k acc with
        | some v => simp [List.filter_cons, hk]
        | none => simp [List.filter_cons, hk]

theorem alookup_groupFold (key : T → K) (ini : T → V) (upd : V → T → V)
    (ts : List T) (k : K) :
    alookup k (groupFold key ini upd ts) =
      match ts.filter (fun t => key t = k) with
      | [] => none
      | t0 :: rest => some (rest.foldl upd (ini t0)) := by
  rw [groupFold, alookup_foldl_accUpd]
  rfl

theorem any_fst_iff_mem (acc : List (K × V)) (k : K) :
    (acc.any fun p => p.1 = k) = true ↔ k ∈ acc.map Prod.fst := by
  rw [List.any_eq_true, List.mem_map]
  constructor
  · rintro ⟨p, hp, he⟩; exact ⟨p, hp, by simpa using he⟩
  · rintro ⟨p, hp, he⟩; exact ⟨p, hp, by simpa using he⟩

theorem map_fst_accUpd (key : T → K) (ini : T → V) (upd : V → T → V)
    (acc : List (K × V)) (t : T) :
    (accUpd key ini upd acc t).map Prod.fst =
      keyStep key (acc.map Prod.fst) t := by
  unfold accUpd keyStep
  by_cases hmem : key t ∈ acc.map Prod.fst
  · have hany : (acc.any fun p => p.1 = key t) = true :=
      (any_fst_iff_mem acc (key t)).mpr hmem
    rw [if_pos hany, if_pos hmem, List.map_map]
    have hcomp : (Prod.fst ∘ fun p : K × V =>
        if p.1 = key t then (p.1, upd p.2 t) else p) = Prod.fst := by
      funext p; by_cases h : p.1 = key t <;> simp [h]
    rw [hcomp]
  · have hany : ¬ (acc.any fun p => p.1 = key t) = true := by
      intro hc; exact hmem ((any_fst_iff_mem acc (key t)).mp hc)
    rw [if_neg hany, if_neg hmem]
    simp

theorem map_fst_foldl_accUpd (key : T → K) (ini : T → V) (upd : V → T → V)
    (ts : List T) (acc : List (K × V)) :
    (ts.foldl (accUpd key ini upd) acc).map Prod.fst =
      ts.foldl (keyStep key) (acc.map Prod.fst) := by
  induction ts generalizing acc with
  | nil => rfl
  | cons t ts ih => rw [List.foldl_cons, List.foldl_cons, ih, map_fst_accUpd]

theorem mem_foldl_keyStep (key : T → K) (ts : List T) (ks : List K) (k : K) :
    k ∈ ts.foldl (keyStep key) ks ↔ k ∈ ks ∨ k ∈ ts.map key := by
  induction ts generalizing ks with
  | nil => simp
  | cons t ts ih =>
      rw [List.foldl_cons, ih]
      unfold keyStep
      by_cases h : key t ∈ ks
      · by_cases hk : k = key t
        · subst hk; simp [h]
        · simp [h, hk]
      · simp [h, or_assoc, List.mem_append]

theorem nodup_foldl_keyStep (key : T → K) (ts : List T) (ks : List K)
    (h : ks.Nodup) : (ts.foldl (keyStep key) ks).Nodup := by
  induction ts generalizing ks with
  | nil => exact h
  | cons t ts ih =>
      rw [List.foldl_cons]
      apply ih
      unfold keyStep
      by_cases hmem : key t ∈ ks
      · rw [if_pos hmem]; exact h
      · rw [if_neg hmem]
        simp [List.nodup_append, h, hmem]

theorem mem_distinctKeys (key : T → K) (ts : List T) (k : K) :
    k ∈ distinctKeys key ts ↔ k ∈ ts.map key := by
  rw [distinctKeys, mem_foldl_keyStep]; simp

theorem nodup_distinctKeys (key : T → K) (ts : List T) :
    (distinctKeys key ts).Nodup :=
  nodup_foldl_keyStep key ts [] List.nodup_nil

theorem map_fst_groupFold (key : T → K) (ini : T → V) (upd : V → T → V)
    (ts : List T) :
    (groupFold key ini upd ts).map Prod.fst = distinctKeys key ts := by
  rw [groupFold, map_fst_foldl_accUpd]; rfl

/-- Length of the accumulated map: one entry per distinct key. -/
theorem length_groupFold (key : T → K) (ini : T → V) (upd : V → T → V)
    (ts : List T) :
    (groupFold key ini upd ts).length = (distinctKeys key ts).length := by
  rw [← map_fst_groupFold key ini upd ts, List.length_map]

theorem length_distinctKeys_eq_card (key : T → K) (ts : List T) :
    (distinctKeys key ts).length = (ts.map key).toFinset.card := by
  have h1 : (distinctKeys key ts).toFinset = (ts.map key).toFinset := by
    ext k
    simp [List.mem_toFinset, mem_distinctKeys]
  have h2 := List.toFinset_card_of_nodup (nodup_distinctKeys key ts)
  rw [← h2, h1]

/-- Generic invariant preserved by accumulation. -/
theorem groupFold_invariant (key : T → K) (ini : T → V) (upd : V → T → V)
    (P : K × V → Prop)
    (hini : ∀ t, P (key t, ini t))
    (hupd : ∀ p t, P p → P (p.1, upd p.2 t))
    (ts : List T) :
    ∀ p ∈ groupFold key ini upd ts, P p := by
  have main : ∀ (ts : List T) (acc : List (K × V)),
      (∀ p ∈ acc, P p) → ∀ p ∈ ts.foldl (accUpd key ini upd) acc, P p := by
    intro ts
    induction ts with
    | nil => intro acc hacc; exact hacc
    | cons t ts ih =>
        intro acc hacc
        rw [List.foldl_cons]
        apply ih
        intro p hp
        unfold accUpd at hp
        by_cases hmem : acc.any (fun q => q.1 = key t) = true
        · rw [if_pos hmem] at hp
          obtain ⟨q, hq, hqe⟩ := List.mem_map.mp hp
          by_cases hqk : q.1 = key t
          · rw [if_pos hqk] at hqe
            rw [← hqe]
            exact hupd q t (hacc q hq)
          · rw [if_neg hqk] at hqe
            rw [← hqe]
            exact hacc q hq
        · rw [if_neg hmem] at hp
          rcases List.mem_append.mp hp with h | h
          · exact hacc p h
          · rw [List.mem_singleton.mp h]
            exact hini t
  intro p hp
  exact main ts [] (by intro p hp; simp at hp) p hp

/-- If the key list is duplicate-free, every entry is found by lookup at its
own key. -/
theorem alookup_self_of_nodup (l : List (K × V))
    (h : (l.map Prod.fst).Nodup) :
    ∀ p ∈ l, alookup p.1 l = some p.2 := by
  induction l with
  | nil => intro p hp; simp at hp
  | cons q qs ih =>
      intro p hp
      rw [List.map_cons, List.nodup_cons] at h
      rcases List.mem_cons.mp hp with hpq | hpm
      · rw [hpq, alookup, if_pos rfl]
      · have hne : ¬ q.1 = p.1 := by
          intro hc
          exact h.1 (hc ▸ (List.mem_map.mpr ⟨p, hpm, rfl⟩))
        rw [alookup, if_neg hne]
        exact ih h.2 p hpm

theorem nodup_map_fst_groupFold (key : T → K) (ini : T → V) (upd : V → T → V)
    (ts : List T) :
    ((groupFold key ini upd ts).map Prod.fst).Nodup := by
  rw [map_fst_groupFold]
  exact nodup_distinctKeys key ts

theorem mapUpd_eq_self (k : K) (g : K × V → K × V) (l : List (K × V))
    (h : ∀ p ∈ l, ¬ p.1 = k) :
    l.map (fun p => if p.1 = k then g p else p) = l := by
  induction l with
  | nil => rfl
  | cons p ps ih =>
      rw [List.map_cons, if_neg (h p (List.mem_cons_self p ps)),
        ih fun q hq => h q (List.mem_cons_of_mem p hq)]

section Sums

variable {M : Type} [AddCommMonoid M]

theorem sum_map_mapUpd (k : K) (upd : V → T → V) (t : T)
    (m : V → M) (μ : T → M)
    (hupd : ∀ v t, m (upd v t) = m v + μ t) (l : List (K × V)) :
    (l.map Prod.fst).Nodup → (l.any fun p => p.1 = k) = true →
    ((l.map (fun p => if p.1 = k then (p.1, upd p.2 t) else p)).map
        (fun p => m p.2)).sum
      = (l.map (fun p => m p.2)).sum + μ t := by
  induction l with
  | nil => intro _ hmem; simp at hmem
  | cons p ps ih =>
      intro hnd hmem
      rw [List.map_cons, List.nodup_cons] at hnd
      by_cases hp : p.1 = k
      · have hrest : ∀ q ∈ ps, ¬ q.1 = k := by
          intro q hq hc
          exact hnd.1 (hp ▸ hc ▸ List.mem_map.mpr ⟨q, hq, rfl⟩)
        rw [List.map_cons, if_pos hp, mapUpd_eq_self k _ ps hrest]
        simp [hupd, add_assoc, add_comm, add_left_comm]
      · have hmem2 : (ps.any fun q => q.1 = k) = true := by
          rcases List.any_eq_true.mp hmem with ⟨q, hq, hqe⟩
          rcases List.mem_cons.mp hq with rfl | hq2
          · exact absurd (by simpa using hqe) hp
          · exact List.any_eq_true.mpr ⟨q, hq2, hqe⟩
        rw [List.map_cons, if_neg hp, List.map_cons, List.sum_cons,
          List.map_cons, List.sum_cons, ih hnd.2 hmem2, add_assoc]

theorem sum_map_accUpd (key : T → K) (ini : T → V) (upd : V → T → V)
    (m : V → M) (μ : T → M)
    (hini : ∀ t, m (ini t) = μ t) (hupd : ∀ v t, m (upd v t) = m v + μ t)
    (acc : List (K × V)) (t : T) (hnd : (acc.map Prod.fst).Nodup) :
    ((accUpd key ini upd acc t).map (fun p => m p.2)).sum
      = (acc.map (fun p => m p.2)).sum + μ t := by
  unfold accUpd
  by_cases hmem : (acc.any fun p => p.1 = key t) = true
  · rw [if_pos hmem]
    exact sum_map_mapUpd (key t) upd t m μ hupd acc hnd hmem
  · rw [if_neg hmem]
    simp [hini]

theorem sum_map_groupFold (key : T → K) (ini : T → V) (upd : V → T → V)
    (m : V → M) (μ : T → M)
    (hini : ∀ t, m (ini t) = μ t) (hupd : ∀ v t, m (upd v t) = m v + μ t)
    (ts : List T) :
    ((groupFold key ini upd ts).map (fun p => m p.2)).sum = (ts.map μ).sum := by
  have main : ∀ (ts : List T) (acc : List (K × V)),
      (acc.map Prod.fst).Nodup →
      ((ts.foldl (accUpd key ini upd) acc).map (fun p => m p.2)).sum
        = (acc.map (fun p => m p.2)).sum + (ts.map μ).sum := by
    intro ts
    induction ts with
    | nil => intro acc _; simp
    | cons t ts ih =>
        intro acc hnd
        have hnd2 : ((accUpd key ini upd acc t).map Prod.fst).Nodup := by
          rw [map_fst_accUpd]
          unfold keyStep
          by_cases hmem : key t ∈ acc.map Prod.fst
          · rw [if_pos hmem]; exact hnd
          · rw [if_neg hmem]; simp [List.nodup_append, hnd, hmem]
        rw [List.foldl_cons, ih _ hnd2,
          sum_map_accUpd key ini upd m μ hini hupd acc t hnd]
        simp [add_assoc, add_comm, add_left_comm]
  have h := main ts [] (by simp)
  rw [groupFold]
  simpa using h

end Sums

theorem perm_insertDesc (key : α → β) (x : α) (l : List α) :
    List.Perm (insertDesc key x l) (x :: l) := by
  induction l with
  | nil => rfl
  | cons y ys ih =>
      rw [insertDesc]
      by_cases h : key y ≤ key x
      · rw [if_pos h]
      · rw [if_neg h]
        exact (ih.cons y).trans (List.Perm.swap x y ys)

theorem perm_sortDescBy (key : α → β) (l : List α) :
    List.Perm (sortDescBy key l) l := by
  induction l with
  | nil => rfl
  | cons x xs ih =>
      rw [sortDescBy]
      exact (perm_insertDesc key x (sortDescBy key xs)).trans (ih.cons x)

theorem mem_insertDesc (key : α → β) (x z : α) (l : List α) :
    z ∈ insertDesc key x l ↔ z = x ∨ z ∈ l :=
  (perm_insertDesc key x l).mem_iff.trans (List.mem_cons)

/-- Sortedness: the output of the descending sort is pairwise non-increasing
in the ranking field. -/
theorem pairwise_insertDesc (key : α → β) (x : α) (l : List α)
    (h : l.Pairwise (fun a b => key b ≤ key a)) :
    (insertDesc key x l).Pairwise (fun a b => key b ≤ key a) := by
  induction l with
  | nil => simp [insertDesc]
  | cons y ys ih =>
      rw [insertDesc]
      rw [List.pairwise_cons] at h
      by_cases hxy : key y ≤ key x
      · rw [if_pos hxy, List.pairwise_cons]
        refine ⟨?_, List.pairwise_cons.mpr h⟩
        intro z hz
        rcases List.mem_cons.mp hz with rfl | hz2
        · exact hxy
        · exact le_trans (h.1 z hz2) hxy
      · rw [if_neg hxy, List.pairwise_cons]
        refine ⟨?_, ih h.2⟩
        intro z hz
        rcases (mem_insertDesc key x z ys).mp hz with rfl | hz2
        · exact le_of_not_le hxy
        · exact h.1 z hz2

theorem pairwise_sortDescBy (key : α → β) (l : List α) :
    (sortDescBy key l).Pairwise (fun a b => key b ≤ key a) := by
  induction l with
  | nil => simp [sortDescBy]
  | cons x xs ih => exact pairwise_insertDesc key x (sortDescBy key xs) ih

/-! ## Field projections through accumulation folds -/

theorem foldl_proj_const {V T M : Type} (upd : V → T → V) (g : V → M)
    (hg : ∀ v t, g (upd v t) = g v) (l : List T) (v : V) :
    g (l.foldl upd v) = g v := by
  induction l generalizing v with
  | nil => rfl
  | cons t l ih => rw [List.foldl_cons, ih, hg]

theorem foldl_proj_add {V T M : Type} [AddCommMonoid M] (upd : V → T → V)
    (g : V → M) (μ : T → M)
    (hg : ∀ v t, g (upd v t) = g v + μ t) (l : List T) (v : V) :
    g (l.foldl upd v) = g v + (l.map μ).sum := by
  induction l generalizing v with
  | nil => simp
  | cons t l ih =>
      rw [List.foldl_cons, ih, hg]
      simp [add_assoc]

/-- Every row of the top-products view describes its own product id group:
the id occurs in the input, the purchase count is the sum of the quantities
of the transactions with that id, and the name and stock come from the first
such transaction (not from any maximum). -/
theorem mem_generateTopProducts (ts : List Transaction)
    (r : ProductFrequency) (hr : r ∈ generateTopProducts ts) :
    r.productID ∈ ts.map Transaction.productID
    ∧ ts.filter (fun t => t.productID = r.productID) ≠ []
    ∧ r.purchaseCount =
        ((ts.filter (fun t => t.productID = r.productID)).map
          (fun t => t.quantity)).sum
    ∧ r.stockQuantity =
        ((ts.filter (fun t => t.productID = r.productID)).headI).stockQuantity
    ∧ r.productName =
        ((ts.filter (fun t => t.productID = r.productID)).headI).productName := by
  set G := groupFold (fun t : Transaction => t.productID)
    topProductsIni topProductsUpd ts with hG
  have hr1 : r ∈ sortDescBy (fun r : ProductFrequency => r.purchaseCount)
      (G.map Prod.snd) := List.take_subset 20 _ hr
  have hr2 : r ∈ G.map Prod.snd :=
    (perm_sortDescBy (fun r : ProductFrequency => r.purchaseCount)
      (G.map Prod.snd)).mem_iff.mp hr1
  obtain ⟨p, hp, hpe⟩ := List.mem_map.mp hr2
  have hkey : p.2.productID = p.1 := by
    refine groupFold_invariant (fun t : Transaction => t.productID)
      topProductsIni topProductsUpd (fun q => q.2.productID = q.1) ?_ ?_ ts p hp
    · intro t; rfl
    · intro q t hq; exact hq
  have hlook : alookup p.1 G = some p.2 :=
    alookup_self_of_nodup G (nodup_map_fst_groupFold _ _ _ ts) p hp
  rw [hG, alookup_groupFold] at hlook
  have hfin : p.1 = r.productID := by rw [← hpe, hkey]
  cases hfil : ts.filter (fun t => t.productID = p.1) with
  | nil => rw [hfil] at hlook; simp at hlook
  | cons t0 rest =>
      rw [hfil] at hlook
      have hval : rest.foldl topProductsUpd (topProductsIni t0) = p.2 := by
        simpa using hlook
      have hfil2 : ts.filter (fun t => t.productID = r.productID) = t0 :: rest := by
        rw [← hfin]; exact hfil
      have ht0 : t0 ∈ ts.filter (fun t => t.productID = p.1) := by
        rw [hfil]; exact List.mem_cons_self t0 rest
      have ht0id : t0.productID = p.1 := by
        have := List.of_mem_filter ht0
        simpa using this
      refine ⟨?_, ?_, ?_, ?_, ?_⟩
      · rw [← hfin]
        exact List.mem_map.mpr ⟨t0, List.mem_of_mem_filter ht0, ht0id⟩
      · rw [hfil2]; simp
      · rw [hfil2, ← hpe]
        have := foldl_proj_add topProductsUpd
          (fun v : ProductFrequency => v.purchaseCount)
          (fun t : Transaction => t.quantity)
          (fun v t => rfl) rest (topProductsIni t0)
        rw [hval] at this
        rw [this]
        simp [topProductsIni]
      · rw [hfil2, ← hpe]
        have := foldl_proj_const topProductsUpd
          (fun v : ProductFrequency => v.stockQuantity)
          (fun v t => rfl) rest (topProductsIni t0)
        rw [hval] at this
        rw [this]
        rfl
      · rw [hfil2, ← hpe]
        have := foldl_proj_const topProductsUpd
          (fun v : ProductFrequency => v.productName)
          (fun v t => rfl) rest (topProductsIni t0)
        rw [hval] at this
        rw [this]
        rfl

/-- C1 (amended).  The top-by-frequency view groups records by product id,
reports per key the sum of quantities as purchase count and the stock
reading of the FIRST transaction seen for that product (not the maximum) as
current stock, is sorted non-increasing in summed quantity, and has exactly
min(20, number of distinct product ids) entries, each for a product id
occurring in the input and at most one entry per product id. -/
theorem generateTopProducts_correct (ts : List Transaction) :
    (generateTopProducts ts).length
        = min 20 ((ts.map Transaction.productID).toFinset.card)
    ∧ ((generateTopProducts ts).map (fun r => r.productID)).Nodup
    ∧ (generateTopProducts ts).Pairwise
        (fun a b => b.purchaseCount ≤ a.purchaseCount)
    ∧ ∀ r ∈ generateTopProducts ts,
        r.productID ∈ ts.map Transaction.productID
        ∧ r.purchaseCount =
            ((ts.filter (fun t => t.productID = r.productID)).map
              (fun t => t.quantity)).sum
        ∧ r.stockQuantity =
            ((ts.filter (fun t => t.productID = r.productID)).headI).stockQuantity := by
  have hpid : ∀ p ∈ groupFold (fun t : Transaction => t.productID)
      topProductsIni topProductsUpd ts, p.2.productID = p.1 := by
    refine groupFold_invariant (fun t : Transaction => t.productID)
      topProductsIni topProductsUpd
      (fun q : String × ProductFrequency => q.2.productID = q.1) ?_ ?_ ts
    · intro t; rfl
    · intro q t hq; exact hq
  have hsortperm := perm_sortDescBy (fun r : ProductFrequency => r.purchaseCount)
    ((groupFold (fun t : Transaction => t.productID) topProductsIni
      topProductsUpd ts).map Prod.snd)
  refine ⟨?_, ?_, ?_, ?_⟩
  · rw [generateTopProducts, List.length_take, hsortperm.length_eq,
      List.length_map, length_groupFold, length_distinctKeys_eq_card]
  · have hmapeq : ((groupFold (fun t : Transaction => t.productID)
        topProductsIni topProductsUpd ts).map Prod.snd).map
          (fun r => r.productID)
        = (groupFold (fun t : Transaction => t.productID) topProductsIni
            topProductsUpd ts).map Prod.fst := by
      rw [List.map_map]
      exact List.map_congr_left hpid
    have hnodupL : (((groupFold (fun t : Transaction => t.productID)
        topProductsIni topProductsUpd ts).map Prod.snd).map
          (fun r => r.productID)).Nodup := by
      rw [hmapeq]
      exact nodup_map_fst_groupFold _ _ _ ts
    have hnodupS := ((hsortperm.map (fun r => r.productID)).nodup_iff).mpr hnodupL
    rw [generateTopProducts]
    exact List.Sublist.nodup (List.Sublist.map _ (List.take_sublist 20 _)) hnodupS
  · exact List.Pairwise.sublist (List.take_sublist 20 _)
      (pairwise_sortDescBy (fun r : ProductFrequency => r.purchaseCount) _)
  · intro r hr
    obtain ⟨h1, _, h3, h4, _⟩ := mem_generateTopProducts ts r hr
    exact ⟨h1, h3, h4⟩

/-- C1 counterexample to the claim as stated: with two transactions of the
same product carrying stock readings 5 then 10, the single output row
reports current stock 5 (the first reading), while the maximum observed
stock reading is 10. -/
theorem generateTopProducts_not_max_stock :
    (generateTopProducts cexStockInput).map (fun r => r.stockQuantity) = [5]
    ∧ specMaxObservedStock "P1" cexStockInput = 10
    ∧ (5 : Int) ≠ 10 := by
  refine ⟨by decide, by decide, by decide⟩

theorem sum_map_one {T : Type} (l : List T) :
    (l.map (fun _ => (1 : Int))).sum = (l.length : Int) := by
  induction l with
  | nil => rfl
  | cons t l ih =>
      rw [List.map_cons, List.sum_cons, ih, List.length_cons]
      push_cast
      ring

/-- Every row of the revenue-by-group view describes the group of
transactions whose concatenated key equals the concatenation of its own
country and product name: total revenue is their summed total price, the
count is their number, and the dimension fields come from the first of
them. -/
theorem mem_generateCountryRevenue (ts : List Transaction)
    (r : CountryRevenue) (hr : r ∈ generateCountryRevenue ts) :
    (∃ t0 ∈ ts, t0.country = r.country ∧ t0.productName = r.productName)
    ∧ ts.filter (fun t =>
        countryRevenueKey t = r.country ++ "|" ++ r.productName) ≠ []
    ∧ r.totalRevenue = ((ts.filter (fun t =>
        countryRevenueKey t = r.country ++ "|" ++ r.productName)).map
          (fun t => t.totalPrice)).sum
    ∧ r.transactionCount = ((ts.filter (fun t =>
        countryRevenueKey t = r.country ++ "|" ++ r.productName)).length : Int) := by
  rw [generateCountryRevenue] at hr
  have hr2 := (perm_sortDescBy (fun r : CountryRevenue => r.totalRevenue)
    ((groupFold countryRevenueKey countryRevenueIni countryRevenueUpd
      ts).map Prod.snd)).mem_iff.mp hr
  obtain ⟨p, hp, hpe⟩ := List.mem_map.mp hr2
  have hkey : p.2.country ++ "|" ++ p.2.productName = p.1 := by
    refine groupFold_invariant countryRevenueKey countryRevenueIni
      countryRevenueUpd
      (fun q : String × CountryRevenue =>
        q.2.country ++ "|" ++ q.2.productName = q.1) ?_ ?_ ts p hp
    · intro t; rfl
    · intro q t hq; exact hq
  have hlook : alookup p.1 (groupFold countryRevenueKey countryRevenueIni
      countryRevenueUpd ts) = some p.2 :=
    alookup_self_of_nodup _ (nodup_map_fst_groupFold _ _ _ ts) p hp
  rw [alookup_groupFold] at hlook
  have hfin : p.1 = r.country ++ "|" ++ r.productName := by
    rw [← hpe, ← hkey]
  cases hfil : ts.filter (fun t => countryRevenueKey t = p.1) with
  | nil => rw [hfil] at hlook; simp at hlook
  | cons t0 rest =>
      rw [hfil] at hlook
      have hval : rest.foldl countryRevenueUpd (countryRevenueIni t0) = p.2 := by
        simpa using hlook
      have hfil2 : ts.filter (fun t =>
          countryRevenueKey t = r.country ++ "|" ++ r.productName)
            = t0 :: rest := by
        rw [← hfin]; exact hfil
      have ht0 : t0 ∈ ts.filter (fun t => countryRevenueKey t = p.1) := by
        rw [hfil]; exact List.mem_cons_self t0 rest
      refine ⟨?_, ?_, ?_, ?_⟩
      · refine ⟨t0, List.mem_of_mem_filter ht0, ?_, ?_⟩
        · rw [← hpe]
          have := foldl_proj_const countryRevenueUpd
            (fun v : CountryRevenue => v.country)
            (fun v t => rfl) rest (countryRevenueIni t0)
          rw [hval] at this
          exact (this.trans rfl).symm
        · rw [← hpe]
          have := foldl_proj_const countryRevenueUpd
            (fun v : CountryRevenue => v.productName)
            (fun v t => rfl) rest (countryRevenueIni t0)
          rw [hval] at this
          exact (this.trans rfl).symm
      · rw [hfil2]; simp
      · rw [hfil2, ← hpe]
        have := foldl_proj_add countryRevenueUpd
          (fun v : CountryRevenue => v.totalRevenue)
          (fun t : Transaction => t.totalPrice)
          (fun v t => rfl) rest (countryRevenueIni t0)
        rw [hval] at this
        rw [this]
        simp [countryRevenueIni]
      · rw [hfil2, ← hpe]
        have := foldl_proj_add countryRevenueUpd
          (fun v : CountryRevenue => v.transactionCount)
          (fun t : Transaction => (1 : Int))
          (fun v t => rfl) rest (countryRevenueIni t0)
        rw [hval] at this
        rw [this, sum_map_one, List.length_cons]
        rw [countryRevenueIni]
        push_cast
        ring

/-- C10: the revenue-by-group view partitions the input.  Transaction
counts over all rows sum to the number of input transactions and total
revenues sum to the sum of all total prices. -/
theorem generateCountryRevenue_partition (ts : List Transaction) :
    ((generateCountryRevenue ts).map (fun r => r.transactionCount)).sum
        = (ts.length : Int)
    ∧ ((generateCountryRevenue ts).map (fun r => r.totalRevenue)).sum
        = (ts.map (fun t => t.totalPrice)).sum := by
  have hperm := perm_sortDescBy (fun r : CountryRevenue => r.totalRevenue)
    ((groupFold countryRevenueKey countryRevenueIni countryRevenueUpd
      ts).map Prod.snd)
  constructor
  · rw [generateCountryRevenue, (hperm.map (fun r => r.transactionCount)).sum_eq,
      List.map_map]
    have := sum_map_groupFold countryRevenueKey countryRevenueIni
      countryRevenueUpd (fun v : CountryRevenue => v.transactionCount)
      (fun _ : Transaction => (1 : Int)) (fun t => rfl) (fun v t => rfl) ts
    rw [show ((fun r : CountryRevenue => r.transactionCount) ∘ Prod.snd)
        = (fun p : String × CountryRevenue => p.2.transactionCount) from rfl,
      this, sum_map_one]
  · rw [generateCountryRevenue, (hperm.map (fun r => r.totalRevenue)).sum_eq,
      List.map_map]
    exact sum_map_groupFold countryRevenueKey countryRevenueIni
      countryRevenueUpd (fun v : CountryRevenue => v.totalRevenue)
      (fun t : Transaction => t.totalPrice) (fun t => rfl) (fun v t => rfl) ts

/-- C7 (amended).  The Go map key is the pipe-concatenation of country and
product name, so distinct pairs are kept apart exactly when their
concatenations differ.  Under that injectivity condition on the input, the
view has exactly one row per distinct (country, product name) pair, with
summed total price and transaction count per pair, sorted non-increasing by
total revenue and never truncated. -/
theorem generateCountryRevenue_correct (ts : List Transaction)
    (hinj : ∀ t1 ∈ ts, ∀ t2 ∈ ts,
      countryRevenueKey t1 = countryRevenueKey t2 →
        t1.country = t2.country ∧ t1.productName = t2.productName) :
    (generateCountryRevenue ts).length
        = ((ts.map (fun t => (t.country, t.productName))).toFinset.card)
    ∧ ((generateCountryRevenue ts).map
        (fun r => (r.country, r.productName))).Nodup
    ∧ (generateCountryRevenue ts).Pairwise
        (fun a b => b.totalRevenue ≤ a.totalRevenue)
    ∧ (∀ r ∈ generateCountryRevenue ts,
        r.totalRevenue = ((ts.filter (fun t =>
            t.country = r.country ∧ t.productName = r.productName)).map
              (fun t => t.totalPrice)).sum
        ∧ r.transactionCount = ((ts.filter (fun t =>
            t.country = r.country ∧ t.productName = r.productName)).length : Int))
    ∧ ∀ t ∈ ts, ∃ r ∈ generateCountryRevenue ts,
        r.country = t.country ∧ r.productName = t.productName := by
  have hrowkey : ∀ p ∈ groupFold countryRevenueKey countryRevenueIni
      countryRevenueUpd ts, p.2.country ++ "|" ++ p.2.productName = p.1 := by
    refine groupFold_invariant countryRevenueKey countryRevenueIni
      countryRevenueUpd
      (fun q : String × CountryRevenue =>
        q.2.country ++ "|" ++ q.2.productName = q.1) ?_ ?_ ts
    · intro t; rfl
    · intro q t hq; exact hq
  have hperm := perm_sortDescBy (fun r : CountryRevenue => r.totalRevenue)
    ((groupFold countryRevenueKey countryRevenueIni countryRevenueUpd
      ts).map Prod.snd)
  refine ⟨?_, ?_, ?_, ?_, ?_⟩
  · rw [generateCountryRevenue, hperm.length_eq, List.length_map,
      length_groupFold, length_distinctKeys_eq_card]
    have hkeymap : ts.map countryRevenueKey
        = (ts.map (fun t => (t.country, t.productName))).map pairKey := by
      rw [List.map_map]; rfl
    have hinjOn : Set.InjOn pairKey
        ((ts.map (fun t => (t.country, t.productName))).toFinset :
          Finset (String × String)) := by
      intro p1 hp1 p2 hp2 he
      rw [Finset.mem_coe, List.mem_toFinset, List.mem_map] at hp1 hp2
      obtain ⟨t1, ht1, he1⟩ := hp1
      obtain ⟨t2, ht2, he2⟩ := hp2
      have hck : countryRevenueKey t1 = countryRevenueKey t2 := by
        have e1 : countryRevenueKey t1 = pairKey p1 := by rw [← he1]; rfl
        have e2 : countryRevenueKey t2 = pairKey p2 := by rw [← he2]; rfl
        rw [e1, e2, he]
      obtain ⟨hc, hn⟩ := hinj t1 ht1 t2 ht2 hck
      rw [← he1, ← he2, hc, hn]
    have himg : ((ts.map (fun t => (t.country, t.productName))).map
        pairKey).toFinset
        = (ts.map (fun t => (t.country, t.productName))).toFinset.image
            pairKey := by
      ext x
      simp [List.mem_toFinset, Finset.mem_image, List.mem_map]
    rw [hkeymap, himg, Finset.card_image_of_injOn hinjOn]
  · have hmapL : (((groupFold countryRevenueKey countryRevenueIni
        countryRevenueUpd ts).map Prod.snd).map
          (fun r : CountryRevenue => r.country ++ "|" ++ r.productName))
        = (groupFold countryRevenueKey countryRevenueIni countryRevenueUpd
            ts).map Prod.fst := by
      rw [List.map_map]
      exact List.map_congr_left hrowkey
    have hnodupK : (((groupFold countryRevenueKey countryRevenueIni
        countryRevenueUpd ts).map Prod.snd).map
          (fun r : CountryRevenue => r.country ++ "|" ++ r.productName)).Nodup := by
      rw [hmapL]
      exact nodup_map_fst_groupFold _ _ _ ts
    have hnodupS : ((generateCountryRevenue ts).map
        (fun r : CountryRevenue => r.country ++ "|" ++ r.productName)).Nodup := by
      rw [generateCountryRevenue]
      exact ((hperm.map _).nodup_iff).mpr hnodupK
    have hfact : ((generateCountryRevenue ts).map
        (fun r : CountryRevenue => (r.country, r.productName))).map pairKey
        = (generateCountryRevenue ts).map
            (fun r : CountryRevenue => r.country ++ "|" ++ r.productName) := by
      rw [List.map_map]; rfl
    apply List.Nodup.of_map pairKey
    rw [hfact]
    exact hnodupS
  · exact pairwise_sortDescBy (fun r : CountryRevenue => r.totalRevenue) _
  · intro r hr
    obtain ⟨⟨t0, ht0, ht0c, ht0n⟩, hne, hrev, hcnt⟩ :=
      mem_generateCountryRevenue ts r hr
    have hfiltereq : ts.filter (fun t =>
        countryRevenueKey t = r.country ++ "|" ++ r.productName)
        = ts.filter (fun t =>
            t.country = r.country ∧ t.productName = r.productName) := by
      apply List.filter_congr
      intro t ht
      apply decide_eq_decide.mpr
      constructor
      · intro hk
        have hck : countryRevenueKey t = countryRevenueKey t0 := by
          rw [hk, countryRevenueKey, ht0c, ht0n]
        obtain ⟨hc, hn⟩ := hinj t ht t0 ht0 hck
        exact ⟨hc.trans ht0c, hn.trans ht0n⟩
      · intro hpair
        rw [countryRevenueKey, hpair.1, hpair.2]
    rw [hfiltereq] at hrev hcnt
    exact ⟨hrev, hcnt⟩
  · intro t ht
    have hkmem : countryRevenueKey t
        ∈ (groupFold countryRevenueKey countryRevenueIni countryRevenueUpd
            ts).map Prod.fst := by
      rw [map_fst_groupFold]
      exact (mem_distinctKeys countryRevenueKey ts _).mpr
        (List.mem_map.mpr ⟨t, ht, rfl⟩)
    obtain ⟨p, hp, hpk⟩ := List.mem_map.mp hkmem
    have hrowmem : p.2 ∈ generateCountryRevenue ts := by
      rw [generateCountryRevenue]
      exact hperm.mem_iff.mpr (List.mem_map.mpr ⟨p, hp, rfl⟩)
    obtain ⟨⟨t0, ht0, ht0c, ht0n⟩, _, _, _⟩ :=
      mem_generateCountryRevenue ts p.2 hrowmem
    have hck : countryRevenueKey t0 = countryRevenueKey t := by
      have h1 : countryRevenueKey t0 = p.2.country ++ "|" ++ p.2.productName := by
        rw [countryRevenueKey, ht0c, ht0n]
      rw [h1, hrowkey p hp, hpk]
    obtain ⟨hc, hn⟩ := hinj t0 ht0 t ht hck
    exact ⟨p.2, hrowmem, ht0c.symm.trans hc, ht0n.symm.trans hn⟩

/-- C7 witness: the accumulation scenario.  Two records with group key
(country=X, product=Y) and totals 100 and 50 satisfy the injectivity
condition and produce exactly one row, with total 150 and count 2. -/
theorem generateCountryRevenue_correct_witness :
    (generateCountryRevenue scenarioAccInput).length
      = ((scenarioAccInput.map
          (fun t => (t.country, t.productName))).toFinset.card)
    ∧ generateCountryRevenue scenarioAccInput
        = [{ country := "X", productName := "Y", totalRevenue := 150,
             transactionCount := 2 }] :=
  ⟨(generateCountryRevenue_correct scenarioAccInput (by decide)).1, by
    norm_num [generateCountryRevenue, groupFold, accUpd, sortDescBy,
      insertDesc, countryRevenueKey, countryRevenueIni, countryRevenueUpd,
      scenarioAccInput, sampleTx]⟩

/-- C7 counterexample to the claim as stated: two transactions with the
distinct group pairs (A|B, C) and (A, B|C) collide on the concatenated map
key, so the view has one row although there are two distinct pairs. -/
theorem generateCountryRevenue_pipe_collision :
    (generateCountryRevenue cexPipeInput).length = 1
    ∧ ((cexPipeInput.map
        (fun t => (t.country, t.productName))).toFinset.card) = 2 := by
  refine ⟨by decide, by decide⟩

theorem parseTxDate_isSome_iff (P : Prims) (s : String) :
    (parseTxDate P s).isSome ↔
      s = "" ∨ (P.parseISO s).isSome ∨ (P.parseUS s).isSome
        ∨ (P.parseDateTime s).isSome := by
  unfold parseTxDate
  by_cases h : s = ""
  · simp [h]
  · rw [if_neg h]
    cases hI : P.parseISO s with
    | some d => simp [h, hI]
    | none =>
        cases hU : P.parseUS s with
        | some d => simp [h, hI, hU]
        | none => simp [h, hI, hU]

theorem parseNonNegFloat_isSome_iff (P : Prims) (s : String) :
    (parseNonNegFloat P s).isSome ↔
      s = "" ∨ ∃ x, P.parseFloat s = some x ∧ 0 ≤ x := by
  unfold parseNonNegFloat
  by_cases h : s = ""
  · simp [h]
  · rw [if_neg h]
    cases hF : P.parseFloat s with
    | none => simp [h, hF]
    | some x =>
        by_cases hx : (0 : Rat) ≤ x
        · simp [h, hF, hx]
        · simp [h, hF, hx]

theorem parsePosInt_isSome_iff (P : Prims) (s : String) :
    (parsePosInt P s).isSome ↔
      s = "" ∨ ∃ n, P.atoi s = some n ∧ 0 < n := by
  unfold parsePosInt
  by_cases h : s = ""
  · simp [h]
  · rw [if_neg h]
    cases hF : P.atoi s with
    | none => simp [h, hF]
    | some n =>
        by_cases hn : (0 : Int) < n
        · simp [h, hF, hn]
        · simp [h, hF, hn]

theorem parseNonNegInt_isSome_iff (P : Prims) (s : String) :
    (parseNonNegInt P s).isSome ↔
      s = "" ∨ ∃ n, P.atoi s = some n ∧ 0 ≤ n := by
  unfold parseNonNegInt
  by_cases h : s = ""
  · simp [h]
  · rw [if_neg h]
    cases hF : P.atoi s with
    | none => simp [h, hF]
    | some n =>
        by_cases hn : (0 : Int) ≤ n
        · simp [h, hF, hn]
        · simp [h, hF, hn]

/-- C4 (amended).  For every choice of primitive field parsers, ParseCSVRow
accepts a row if and only if it has at least 12 fields, a non-empty trimmed
transaction id, and each validated field is either empty after trimming
(skipped, left at its zero value) or parses with the required sign
condition: the date under one of three layouts, the price and total price
as non-negative floats, the quantity as a strictly positive integer, and
the stock quantity as a non-negative integer. -/
theorem ParseCSVRow_ok_iff (P : Prims) (row : List String) :
    (∃ t, ParseCSVRow P row = .ok t) ↔
      (12 ≤ row.length
      ∧ trimSpace (row.getD 0 "") ≠ ""
      ∧ (trimSpace (row.getD 1 "") = ""
          ∨ (P.parseISO (trimSpace (row.getD 1 ""))).isSome
          ∨ (P.parseUS (trimSpace (row.getD 1 ""))).isSome
          ∨ (P.parseDateTime (trimSpace (row.getD 1 ""))).isSome)
      ∧ (trimSpace (row.getD 8 "") = ""
          ∨ ∃ x, P.parseFloat (trimSpace (row.getD 8 "")) = some x ∧ 0 ≤ x)
      ∧ (trimSpace (row.getD 9 "") = ""
          ∨ ∃ n, P.atoi (trimSpace (row.getD 9 "")) = some n ∧ 0 < n)
      ∧ (trimSpace (row.getD 10 "") = ""
          ∨ ∃ x, P.parseFloat (trimSpace (row.getD 10 "")) = some x ∧ 0 ≤ x)
      ∧ (trimSpace (row.getD 11 "") = ""
          ∨ ∃ n, P.atoi (trimSpace (row.getD 11 "")) = some n ∧ 0 ≤ n)) := by
  unfold ParseCSVRow
  by_cases hlen : row.length < 12
  · rw [if_pos hlen]
    constructor
    · rintro ⟨t, ht⟩; simp at ht
    · rintro ⟨h12, _⟩; omega
  · rw [if_neg hlen]
    have h12 : 12 ≤ row.length := by omega
    by_cases htid : trimSpace (row.getD 0 "") = ""
    · rw [if_pos htid]
      constructor
      · rintro ⟨t, ht⟩; simp at ht
      · rintro ⟨_, hne, _⟩; exact absurd htid hne
    · rw [if_neg htid]
      cases hD : parseTxDate P (trimSpace (row.getD 1 "")) with
      | none =>
          constructor
          · rintro ⟨t, ht⟩; simp at ht
          · rintro ⟨_, _, hdate, _⟩
            have hs := (parseTxDate_isSome_iff P _).mpr hdate
            rw [hD] at hs; simp at hs
      | some d =>
        cases hF8 : parseNonNegFloat P (trimSpace (row.getD 8 "")) with
        | none =>
            constructor
            · rintro ⟨t, ht⟩; simp at ht
            · rintro ⟨_, _, _, hprice, _⟩
              have hs := (parseNonNegFloat_isSome_iff P _).mpr hprice
              rw [hF8] at hs; simp at hs
        | some price =>
          cases hQ : parsePosInt P (trimSpace (row.getD 9 "")) with
          | none =>
              constructor
              · rintro ⟨t, ht⟩; simp at ht
              · rintro ⟨_, _, _, _, hqty, _⟩
                have hs := (parsePosInt_isSome_iff P _).mpr hqty
                rw [hQ] at hs; simp at hs
          | some qty =>
            cases hF10 : parseNonNegFloat P (trimSpace (row.getD 10 "")) with
            | none =>
                constructor
                · rintro ⟨t, ht⟩; simp at ht
                · rintro ⟨_, _, _, _, _, htot, _⟩
                  have hs := (parseNonNegFloat_isSome_iff P _).mpr htot
                  rw [hF10] at hs; simp at hs
            | some total =>
              cases hS : parseNonNegInt P (trimSpace (row.getD 11 "")) with
              | none =>
                  constructor
                  · rintro ⟨t, ht⟩; simp at ht
                  · rintro ⟨_, _, _, _, _, _, hstk⟩
                    have hs := (parseNonNegInt_isSome_iff P _).mpr hstk
                    rw [hS] at hs; simp at hs
              | some stock =>
                  constructor
                  · intro _
                    refine ⟨h12, htid, ?_, ?_, ?_, ?_, ?_⟩
                    · exact (parseTxDate_isSome_iff P _).mp (by rw [hD]; rfl)
                    · exact (parseNonNegFloat_isSome_iff P _).mp (by rw [hF8]; rfl)
                    · exact (parsePosInt_isSome_iff P _).mp (by rw [hQ]; rfl)
                    · exact (parseNonNegFloat_isSome_iff P _).mp (by rw [hF10]; rfl)
                    · exact (parseNonNegInt_isSome_iff P _).mp (by rw [hS]; rfl)
                  · intro _
                    exact ⟨_, rfl⟩

/-- C4 counterexample to the claim as stated: a 12-field row whose optional
fields are all empty is accepted with no error, although its date field is
not parseable and its quantity (zero) is not positive. -/
theorem ParseCSVRow_accepts_empty_optional_fields :
    ParseCSVRow defaultPrims cexEmptyRow
      = .ok { transactionID := "T1", transactionDate := goZeroDate,
              userID := "", country := "", region := "", productID := "",
              productName := "", category := "", price := 0, quantity := 0,
              totalPrice := 0, stockQuantity := 0, addedDate := goZeroDate }
    ∧ ¬ ((0 : Int) > 0) := by
  refine ⟨rfl, by decide⟩

/-! ### Batch reader and collector -/

theorem chunkFrom_join (batchSize : Nat) (hbs : 0 < batchSize) (i : Nat)
    (rows : List (List String)) :
    ((chunkFrom batchSize i rows).map (fun b => b.records)).flatten = rows := by
  rw [chunkFrom]
  by_cases h : batchSize = 0 ∨ rows = []
  · rw [dif_pos h]
    rcases h with h | h
    · omega
    · simp [h]
  · rw [dif_neg h]
    have hrec := chunkFrom_join batchSize hbs (i + 1) (rows.drop batchSize)
    simp only [List.map_cons, List.flatten_cons, hrec]
    exact List.take_append_drop batchSize rows
termination_by rows.length
decreasing_by
  rw [List.length_drop]
  push_neg at h
  have h3 : 0 < rows.length := List.length_pos.mpr h.2
  omega

theorem chunkFrom_map_index (batchSize : Nat) (i : Nat)
    (rows : List (List String)) :
    (chunkFrom batchSize i rows).map (fun b => b.index)
      = List.range' i (chunkFrom batchSize i rows).length := by
  rw [chunkFrom]
  by_cases h : batchSize = 0 ∨ rows = []
  · rw [dif_pos h]; rfl
  · rw [dif_neg h]
    have hrec := chunkFrom_map_index batchSize (i + 1) (rows.drop batchSize)
    simp only [List.map_cons, List.length_cons, hrec, List.range'_succ]
termination_by rows.length
decreasing_by
  rw [List.length_drop]
  push_neg at h
  have h3 : 0 < rows.length := List.length_pos.mpr h.2
  omega

theorem reassemble_succ (n : Nat) (results : List BatchResult) :
    reassemble (n + 1) results
      = reassemble n results
        ++ (match results.find? (fun b => b.batchIndex = n) with
            | some b => b.transactions
            | none => []) := by
  unfold reassemble
  rw [List.range_succ, List.foldl_append, List.foldl_cons, List.foldl_nil]
  cases h : results.find? (fun b => b.batchIndex = n) with
  | some b => simp [h]
  | none => simp [h]

theorem reassemble_nil (n : Nat) : reassemble n [] = [] := by
  induction n with
  | zero => rfl
  | succ n ih => rw [reassemble_succ]; simp [ih]

theorem find?_perm_of_nodup_keys (l l' : List BatchResult)
    (hperm : List.Perm l l')
    (hnd : (l'.map (fun b => b.batchIndex)).Nodup) (i : Nat) :
    l.find? (fun b => b.batchIndex = i) = l'.find? (fun b => b.batchIndex = i) := by
  cases h : l.find? (fun b => b.batchIndex = i) with
  | none =>
      rw [List.find?_eq_none] at h
      symm
      rw [List.find?_eq_none]
      intro x hx
      exact h x (hperm.mem_iff.mpr hx)
  | some b =>
      have hb := List.find?_some h
      have hbmem := List.mem_of_find?_eq_some h
      have hbmem2 : b ∈ l' := hperm.mem_iff.mp hbmem
      symm
      cases h2 : l'.find? (fun b => b.batchIndex = i) with
      | none =>
          rw [List.find?_eq_none] at h2
          exact absurd hb (h2 b hbmem2)
      | some c =>
          have hc := List.find?_some h2
          have hcmem := List.mem_of_find?_eq_some h2
          have hcb : c = b := by
            apply List.inj_on_of_nodup_map hnd hcmem hbmem2
            have hc2 : c.batchIndex = i := by simpa using hc
            have hb2 : b.batchIndex = i := by simpa using hb
            rw [hc2, hb2]
          rw [hcb]

theorem reassemble_congr (n : Nat) (l l2 : List BatchResult)
    (h : ∀ i, l.find? (fun b => b.batchIndex = i)
      = l2.find? (fun b => b.batchIndex = i)) :
    reassemble n l = reassemble n l2 := by
  induction n with
  | zero => rfl
  | succ n ih => rw [reassemble_succ, reassemble_succ, ih, h n]

theorem find?_append_singleton_ne (rs : List BatchResult) (b : BatchResult)
    (i : Nat) (hb : ¬ b.batchIndex = i) :
    (rs ++ [b]).find? (fun x => x.batchIndex = i)
      = rs.find? (fun x => x.batchIndex = i) := by
  rw [List.find?_append]
  cases h : rs.find? (fun x => x.batchIndex = i) with
  | some c => rfl
  | none => simp [List.find?, hb]

theorem reassemble_append_last_ge (n : Nat) (rs : List BatchResult)
    (b : BatchResult) :
    n ≤ b.batchIndex → reassemble n (rs ++ [b]) = reassemble n rs := by
  induction n with
  | zero => intro _; rfl
  | succ n ih =>
      intro hb
      rw [reassemble_succ, reassemble_succ, ih (by omega),
        find?_append_singleton_ne rs b n (by omega)]

/-- With results in strictly increasing index order and indices below the
total, reassembly concatenates the transactions in that order. -/
theorem reassemble_eq_join (total : Nat) :
    ∀ (results : List BatchResult),
      (∀ r ∈ results, r.batchIndex < total) →
      List.Pairwise (fun a b => a.batchIndex < b.batchIndex) results →
      reassemble total results = (results.map (fun b => b.transactions)).flatten := by
  induction total with
  | zero =>
      intro results hbound _
      cases results with
      | nil => rfl
      | cons r rs => exact absurd (hbound r (List.mem_cons_self r rs)) (by omega)
  | succ n ih =>
      intro results hbound hpair
      induction results using List.reverseRecOn with
      | nil => rw [reassemble_nil]; rfl
      | append_singleton rs b _ =>
          have hsplit := List.pairwise_append.mp hpair
          have hrs_pair := hsplit.1
          have hrs_lt_b : ∀ r ∈ rs, r.batchIndex < b.batchIndex := by
            intro r hr
            exact hsplit.2.2 r hr b (List.mem_singleton_self b)
          by_cases hb : b.batchIndex = n
          · rw [reassemble_succ, reassemble_append_last_ge n rs b (by omega),
              ih rs (fun r hr => by have := hrs_lt_b r hr; omega) hrs_pair]
            have hnone : rs.find? (fun x => x.batchIndex = n) = none := by
              rw [List.find?_eq_none]
              intro x hx
              have := hrs_lt_b x hx
              simp only [decide_eq_true_eq]
              omega
            have hfind : (rs ++ [b]).find? (fun x => x.batchIndex = n)
                = some b := by
              rw [List.find?_append, hnone]
              simp [List.find?, hb]
            rw [hfind]
            simp
          · have hblt : b.batchIndex < n := by
              have := hbound b (by simp)
              omega
            rw [reassemble_succ]
            have hfind : (rs ++ [b]).find? (fun x => x.batchIndex = n)
                = none := by
              rw [List.find?_eq_none]
              intro x hx
              rcases List.mem_append.mp hx with hx | hx
              · have := hrs_lt_b x hx
                simp only [decide_eq_true_eq]
                omega
              · rw [List.mem_singleton.mp hx]
                simp only [decide_eq_true_eq]
                omega
            rw [hfind]
            have hboundn : ∀ r ∈ rs ++ [b], r.batchIndex < n := by
              intro r hr
              rcases List.mem_append.mp hr with hr | hr
              · have := hrs_lt_b r hr; omega
              · rw [List.mem_singleton.mp hr]; omega
            rw [ih (rs ++ [b]) hboundn hpair]
            simp

theorem join_map_filterMap {γ δ : Type} (f : γ → Option δ)
    (ll : List (List γ)) :
    (ll.map (fun l => l.filterMap f)).flatten = ll.flatten.filterMap f := by
  induction ll with
  | nil => rfl
  | cons l ls ih =>
      rw [List.map_cons, List.flatten_cons, List.flatten_cons,
        List.filterMap_append, ih]

theorem collectResults_map_index_sublist (P : Prims) (batchSize : Nat)
    (rows : List (List String)) (lost : List Nat) :
    List.Sublist ((collectResults P batchSize rows lost).map
        (fun b => b.batchIndex))
      (List.range' 0 (readBatches batchSize rows).length) := by
  have hmm : ((readBatches batchSize rows).map (processBatch P)).map
      (fun b => b.batchIndex)
      = List.range' 0 (readBatches batchSize rows).length := by
    rw [List.map_map]
    exact chunkFrom_map_index batchSize 0 rows
  rw [← hmm]
  exact List.Sublist.map _ (List.filter_sublist _)

theorem collectResults_nodup_keys (P : Prims) (batchSize : Nat)
    (rows : List (List String)) (lost : List Nat) :
    ((collectResults P batchSize rows lost).map
      (fun b => b.batchIndex)).Nodup :=
  List.Sublist.nodup (collectResults_map_index_sublist P batchSize rows lost)
    (List.nodup_range' _ _)

theorem collectResults_bound (P : Prims) (batchSize : Nat)
    (rows : List (List String)) (lost : List Nat) :
    ∀ r ∈ collectResults P batchSize rows lost,
      r.batchIndex < (readBatches batchSize rows).length := by
  intro r hr
  have : r.batchIndex ∈ (collectResults P batchSize rows lost).map
      (fun b => b.batchIndex) := List.mem_map.mpr ⟨r, hr, rfl⟩
  have hmem := (collectResults_map_index_sublist P batchSize rows
    lost).subset this
  rw [List.mem_range'_1] at hmem
  omega

theorem collectResults_pairwise (P : Prims) (batchSize : Nat)
    (rows : List (List String)) (lost : List Nat) :
    List.Pairwise (fun a b => a.batchIndex < b.batchIndex)
      (collectResults P batchSize rows lost) := by
  have h := List.Pairwise.sublist
    (collectResults_map_index_sublist P batchSize rows lost)
    (List.pairwise_lt_range' 0 (readBatches batchSize rows).length)
  exact (List.pairwise_map).mp h

/-- C2.  Whatever order the worker results arrive in (any permutation of
the present batch results), the collector output is the concatenation of
the present batches' parsed rows in strictly increasing batch-index order,
and with no losses it equals the original row order restricted to the rows
that parse. -/
theorem ProcessLargeCSV_order_invariant (P : Prims) (batchSize : Nat)
    (rows : List (List String)) (lost : List Nat) (elapsedMs : Int)
    (memoryUsageMB : Rat) (results : List BatchResult)
    (hbs : 0 < batchSize)
    (hperm : List.Perm results (collectResults P batchSize rows lost)) :
    (∃ res, ProcessLargeCSV P batchSize (CSVSource.content rows) lost
        elapsedMs memoryUsageMB = Except.ok res
      ∧ res.transactions
          = reassemble (readBatches batchSize rows).length results)
    ∧ reassemble (readBatches batchSize rows).length results
        = (((readBatches batchSize rows).filter
            (fun b => ¬ b.index ∈ lost)).map
              (fun b => (processBatch P b).transactions)).flatten
    ∧ (lost = [] →
        reassemble (readBatches batchSize rows).length results
          = rows.filterMap (fun r => (ParseCSVRow P r).toOption)) := by
  have hcongr : reassemble (readBatches batchSize rows).length results
      = reassemble (readBatches batchSize rows).length
          (collectResults P batchSize rows lost) :=
    reassemble_congr _ _ _
      (find?_perm_of_nodup_keys _ _ hperm
        (collectResults_nodup_keys P batchSize rows lost))
  have hjoin : reassemble (readBatches batchSize rows).length
      (collectResults P batchSize rows lost)
      = ((collectResults P batchSize rows lost).map
          (fun b => b.transactions)).flatten :=
    reassemble_eq_join _ _ (collectResults_bound P batchSize rows lost)
      (collectResults_pairwise P batchSize rows lost)
  have hfilter : (collectResults P batchSize rows lost).map
      (fun b => b.transactions)
      = ((readBatches batchSize rows).filter
          (fun b => ¬ b.index ∈ lost)).map
            (fun b => (processBatch P b).transactions) := by
    rw [collectResults, List.filter_map, List.map_map]
    rfl
  refine ⟨⟨_, rfl, hcongr.symm⟩, ?_, ?_⟩
  · rw [hcongr, hjoin, hfilter]
  · intro hlost
    rw [hcongr, hjoin, hfilter, hlost]
    have hall : (readBatches batchSize rows).filter
        (fun b => ¬ b.index ∈ ([] : List Nat)) = readBatches batchSize rows := by
      rw [List.filter_eq_self]
      intro b _
      simp
    rw [hall]
    have hmapeq : (readBatches batchSize rows).map
        (fun b => (processBatch P b).transactions)
        = (readBatches batchSize rows).map
            (fun b => b.records.filterMap (fun r => (ParseCSVRow P r).toOption)) := rfl
    rw [hmapeq]
    have hcompose : (readBatches batchSize rows).map
        (fun b => b.records.filterMap (fun r => (ParseCSVRow P r).toOption))
        = ((readBatches batchSize rows).map (fun b => b.records)).map
            (fun l => l.filterMap (fun r => (ParseCSVRow P r).toOption)) := by
      rw [List.map_map]
      rfl
    have hrows : ((readBatches batchSize rows).map
        (fun b => b.records)).flatten = rows := by
      rw [readBatches]
      exact chunkFrom_join batchSize hbs 0 rows
    rw [hcompose, join_map_filterMap, hrows]

/-- Concrete evaluation of the collector input on the witness rows. -/
theorem collectResults_witness_eval :
    collectResults defaultPrims 2 witnessRows []
      = [processBatch defaultPrims { records := [cexEmptyRow, []], index := 0 },
         processBatch defaultPrims { records := [cexEmptyRow], index := 1 }] := by
  rw [collectResults, readBatches]
  rw [chunkFrom, dif_neg (by simp [witnessRows])]
  rw [chunkFrom, dif_neg (by simp [witnessRows])]
  rw [chunkFrom, dif_pos (by simp [witnessRows])]
  simp [witnessRows]

/-- C2 witness: three rows at batch size 2 yield two batches; feeding the
collector the two results in reversed completion order still reconstructs
the parsed rows in original order. -/
theorem ProcessLargeCSV_order_invariant_witness :
    (0 < 2 ∧ List.Perm witnessResults (collectResults defaultPrims 2
        witnessRows []))
    ∧ reassemble (readBatches 2 witnessRows).length witnessResults
        = witnessRows.filterMap
            (fun r => (ParseCSVRow defaultPrims r).toOption) :=
  ⟨⟨by decide, by
      rw [witnessResults, collectResults_witness_eval]
      exact List.Perm.swap _ _ []⟩,
    (ProcessLargeCSV_order_invariant defaultPrims 2 witnessRows [] 0 0
      witnessResults (by decide) (by
        rw [witnessResults, collectResults_witness_eval]
        exact List.Perm.swap _ _ [])).2.2 rfl⟩

/-- C5.  The pipeline aborts with an error exactly when the source cannot
be opened or its header cannot be read; for readable content it returns a
result regardless of parse failures, lost batches or loss ratio. -/
theorem ProcessLargeCSV_error_iff (P : Prims) (batchSize : Nat)
    (src : CSVSource) (lost : List Nat) (elapsedMs : Int) (mem : Rat) :
    ((∃ e, ProcessLargeCSV P batchSize src lost elapsedMs mem
        = Except.error e)
      ↔ ((∃ msg, src = CSVSource.openError msg)
          ∨ (∃ msg, src = CSVSource.headerError msg)))
    ∧ ((∃ res, ProcessLargeCSV P batchSize src lost elapsedMs mem
        = Except.ok res)
      ↔ ∃ rows, src = CSVSource.content rows) := by
  cases src with
  | openError msg => simp [ProcessLargeCSV]
  | headerError msg => simp [ProcessLargeCSV]
  | content rows => simp [ProcessLargeCSV]

/-! ### Cache tier -/

theorem decodeCountryRevenue_encode (r : CountryRevenue) :
    decodeCountryRevenue (encodeCountryRevenue r) = some r := rfl

theorem decodeProductFrequency_encode (r : ProductFrequency) :
    decodeProductFrequency (encodeProductFrequency r) = some r := rfl

theorem decodeMonthlySales_encode (r : MonthlySales) :
    decodeMonthlySales (encodeMonthlySales r) = some r := rfl

theorem decodeRegionRevenue_encode (r : RegionRevenue) :
    decodeRegionRevenue (encodeRegionRevenue r) = some r := rfl

theorem decodeList_encode {γ : Type} (enc : γ → Json) (dec : Json → Option γ)
    (h : ∀ x, dec (enc x) = some x) (l : List γ) :
    decodeList dec (l.map enc) = some l := by
  induction l with
  | nil => rfl
  | cons x xs ih => simp [decodeList, h, ih]

/-- Marshalling is injectively inverted by unmarshalling. -/
theorem unmarshal_marshal (a : AnalyticsResponse) :
    unmarshal (marshal a) = some a := by
  have h1 := decodeList_encode encodeCountryRevenue decodeCountryRevenue
    decodeCountryRevenue_encode a.countryRevenue
  have h2 := decodeList_encode encodeProductFrequency decodeProductFrequency
    decodeProductFrequency_encode a.topProducts
  have h3 := decodeList_encode encodeMonthlySales decodeMonthlySales
    decodeMonthlySales_encode a.monthlySales
  have h4 := decodeList_encode encodeRegionRevenue decodeRegionRevenue
    decodeRegionRevenue_encode a.topRegions
  simp [unmarshal, marshal, alookup, asArr, asInt, asBool, h1, h2, h3, h4]

/-- C6.  Saving a snapshot to the durable file and loading it back returns
a snapshot equal in content to the original (and repopulates the memory
slot as the Go loader does). -/
theorem SaveToFile_LoadFromFile_roundtrip (c : CacheService) (fc : FileCache)
    (data : AnalyticsResponse) (now memAlloc : Int) :
    LoadFromFile c (SaveToFile fc data) now memAlloc
      = Except.ok (data, SaveToMemory c data now memAlloc) := by
  simp [LoadFromFile, SaveToFile, unmarshal_marshal]

/-- C8 (amended).  When the process memory reading exceeds the ceiling, a
memory-cache read always reports a miss; the slot ends up empty exactly
when it already was empty or its entry was still within the TTL (a fresh
entry is evicted), while an EXPIRED entry is left in place because the TTL
check returns first. -/
theorem LoadFromCache_memory_ceiling (c : CacheService) (now memAlloc : Int)
    (hmem : c.maxMemory < memAlloc) :
    (LoadFromCache c now memAlloc).1 = none
    ∧ ((LoadFromCache c now memAlloc).2.cacheData = none ↔
        (c.cacheData = none ∨ now - c.cacheTime ≤ c.cacheTTL)) := by
  cases hd : c.cacheData with
  | none => simp [LoadFromCache, hd]
  | some d =>
      by_cases httl : c.cacheTTL < now - c.cacheTime
      · simp [LoadFromCache, hd, if_pos httl]
        omega
      · simp [LoadFromCache, hd, if_neg httl, if_pos hmem]
        omega

/-- C8 witness: a service whose fresh entry sits over the memory ceiling
reports a miss and has its slot cleared. -/
theorem LoadFromCache_memory_ceiling_witness :
    ((10 : Int) < 50)
    ∧ (LoadFromCache cexFreshCache 5 50).1 = none
    ∧ (LoadFromCache cexFreshCache 5 50).2.cacheData = none :=
  ⟨by decide,
   (LoadFromCache_memory_ceiling cexFreshCache 5 50 (by decide)).1,
   ((LoadFromCache_memory_ceiling cexFreshCache 5 50 (by decide)).2).mpr
     (Or.inr (by decide))⟩

/-- C8 counterexample to the claim as stated: with an EXPIRED entry and an
over-ceiling memory reading, the read reports a miss but the memory slot is
NOT cleared, because the TTL check returns before the ceiling check. -/
theorem LoadFromCache_expired_entry_not_cleared :
    (10 : Int) < 50
    ∧ (LoadFromCache cexExpiredCache 200 50).1 = none
    ∧ (LoadFromCache cexExpiredCache 200 50).2.cacheData ≠ none := by
  refine ⟨by decide, rfl, by decide⟩

/-- C3 (code bug).  PreprocessAndCache rewrites only the durable file (it
constructs a fresh cache service internally and never calls SaveToMemory),
so the handler's long-lived memory slot still holds the PRE-refresh
snapshot and a subsequent memory-cache read within the TTL returns it, not
the post-refresh snapshot. -/
theorem PreprocessAndCache_leaves_memory_slot_stale :
    (∃ r, PreprocessAndCache defaultPrims 2 (CSVSource.content [cexEmptyRow])
        [] 0 0 { file := none } 0 = Except.ok r)
    ∧ (LoadFromCache cexStaleCache 10 50).1
        = some { cexOldSnapshot with cacheHit := true }
    ∧ cexOldSnapshot ≠ cexNewSnapshot := by
  refine ⟨⟨_, rfl⟩, rfl, by decide⟩

end ABT
